import Mathlib

/-!
# chatsim: a shallow embedding of the simulated chat user

The development follows `user.go` and `chat.go`.  A `User` is embedded as a
record that is passed explicitly through every operation; the two channels of
the Go struct carry no state of their own and are represented by the list of
sends an operation issues.  Go maps are association lists with unique keys,
the order in which `range` walks a map and every draw of `math/rand` are
inputs, and a runtime panic is the `error` side of `Except Fatal`.  A panic in
a goroutine that an operation spawns ends the process like one in the operation
itself, so it is an outcome of that operation.
-/

namespace Chatsim

/-! ## The Go runtime pieces the program relies on -/

/-- Runtime panics of the Go program; each of them ends the whole process. -/
inductive Fatal where
  /-- The panic of `rand.Intn(n)` for `n <= 0`. -/
  | intnNonPositive
  /-- The panic of a slice index outside `0 .. len-1`. -/
  | indexOutOfRange
  /-- The panic of a field access through a nil pointer. -/
  | nilDereference
  deriving DecidableEq, Repr

/-- A Go `map[string]V`: finitely many entries, at most one per key. -/
abbrev GoMap (V : Type) := AList (fun _ : String => V)

/-- The length `len(m)` of a map. -/
def GoMap.len {V : Type} (m : GoMap V) : Nat := m.keys.length

/-- The order chosen by `seed` among all orders of `l`; every permutation of `l`
is the value for some seed. -/
def pickOrder {α : Type} (seed : Nat) (l : List α) : List α :=
  (l.permutations').getD (seed % (l.permutations').length) l

/-- The keys of a map in the order a `for k := range m` loop visits them.  Go
leaves the order unspecified, so it is selected by `seed`. -/
def GoMap.rangeKeys {V : Type} (seed : Nat) (m : GoMap V) : List String :=
  pickOrder seed m.keys

/-- The values of a map in the order a `for _, v := range m` loop visits them. -/
def GoMap.rangeValues {V : Type} (seed : Nat) (m : GoMap V) : List V :=
  (m.rangeKeys seed).filterMap (fun k => m.lookup k)

/-- The call `rand.Intn(n)`: panics for `n <= 0`, otherwise a value in `[0, n)`
determined by the raw draw. -/
def randIntn (raw n : Nat) : Except Fatal Nat :=
  if n = 0 then .error .intnNonPositive else .ok (raw % n)

/-- The call `rand.Perm(n)`: a permutation of `0 .. n-1` selected by `seed`. -/
def randPerm (seed n : Nat) : List Nat := pickOrder seed (List.range n)

/-- Lexicographic comparison `a <= b` of two character sequences, the order Go
uses for strings (bytewise on UTF-8, which agrees with code point order). -/
def lexLE : List Char → List Char → Bool
  | [], _ => true
  | _ :: _, [] => false
  | a :: as, b :: bs =>
    if a.toNat < b.toNat then true
    else if b.toNat < a.toNat then false
    else lexLE as bs

/-- The order `a <= b` on Go strings. -/
def strLE (a b : String) : Prop := lexLE a.data b.data = true

instance strLE.decidable : DecidableRel strLE := fun a b =>
  inferInstanceAs (Decidable (lexLE a.data b.data = true))

/-- The call `sort.Strings(ids)`: the ascending rearrangement of `ids`. -/
def sortStrings (ids : List String) : List String := ids.insertionSort strLE

/-- The call `strings.Join(elems, sep)`. -/
def stringsJoin : List String → String → String
  | [], _ => ""
  | [a], _ => a
  | a :: b :: rest, sep => a ++ sep ++ stringsJoin (b :: rest) sep

/-- The element `xs[i]` of a slice; an index out of range panics. -/
def sliceIndex {α : Type} (xs : List α) (i : Nat) : Except Fatal α :=
  match xs[i]? with
  | some x => .ok x
  | none => .error .indexOutOfRange

/-! ## chat.go -/

/-- ChatRoom represents a simulated chat room. -/
structure ChatRoom where
  /-- Combination of ID's of users in it. -/
  ID : String
  /-- The ids of the users in the room. -/
  UserIDs : List String
  deriving DecidableEq, Repr

/-- ChatEventType is just a wrapper for int. -/
abbrev ChatEventType := Int

/-- ChatEventNew is an event sent on chat room creation. -/
def ChatEventNew : ChatEventType := 0
/-- ChatEventMessage is sent when a chat message is sent to a chat room. -/
def ChatEventMessage : ChatEventType := 1
/-- ChatEventClose marks chat room closing by one of the users in it. -/
def ChatEventClose : ChatEventType := 2

/-- A `*User` as other users hold it: the address of the struct together with the
`ID` readable through it (the field is never written after construction). -/
structure UserRef where
  ID : String
  addr : Nat
  deriving DecidableEq, Repr

/-- ChatEvent carries chat events between users. -/
structure ChatEvent where
  /-- User triggering the event. -/
  User : UserRef
  /-- Chat room the event affects. -/
  ChatRoom : ChatRoom
  /-- Optional message. -/
  Message : String
  /-- Type of event (the field `Type` of the Go struct). -/
  Typ : ChatEventType
  /-- Event timestamp, in seconds. -/
  Ts : Nat
  deriving DecidableEq, Repr

/-! ## user.go -/

/-- User is our simulated chat user.  `addr` is the address of the struct, the
value of the receiver `u`. -/
structure User where
  ID : String
  addr : Nat
  /-- Holds all other online users. -/
  OtherUsers : GoMap UserRef
  /-- Holds all chat rooms this user is in. -/
  UserChats : GoMap ChatRoom
  deriving DecidableEq

/-- The pointer `u` itself. -/
def User.ref (u : User) : UserRef := { ID := u.ID, addr := u.addr }

/-- One `user.EventChannel <- event`, issued from its own goroutine. -/
structure Send where
  target : UserRef
  event : ChatEvent
  deriving DecidableEq, Repr

/-- The inputs an operation reads from its environment: the draws of `math/rand`,
the orders of its `range` loops over maps, and the clock. -/
structure Rand where
  /-- Raw value behind the `rand.Intn` draw. -/
  intn : Nat
  /-- Selects the result of `rand.Perm`. -/
  perm : Nat
  /-- Selects the order of the loop that collects map keys. -/
  keys : Nat
  /-- Selects the order of the loop that spawns the sends. -/
  fanout : Nat
  /-- The reading of `time.Now()`. -/
  now : Nat
  deriving DecidableEq, Repr

/-- What one of `NewChat`, `NewMessage`, `CloseChat` leaves behind when it returns:
the user afterwards, the sends it spawned, and its `(ChatEvent, error)` pair. -/
structure Result where
  user : User
  sent : List Send
  ret : Except String ChatEvent

/-- Two decimal digits of `n`. -/
def twoDigits (n : Nat) : String :=
  String.mk [Char.ofNat (48 + n / 10 % 10), Char.ofNat (48 + n % 10)]

/-- The text of `ts.Format("15:04:05")` for a clock reading in seconds. -/
def formatClock (ts : Nat) : String :=
  twoDigits (ts / 3600 % 24) ++ ":" ++ twoDigits (ts / 60 % 60) ++ ":" ++ twoDigits (ts % 60)

/-- otherUserIDs is a boilerplate function to get map's keys as a slice. -/
def User.otherUserIDs (u : User) (seed : Nat) : List String :=
  u.OtherUsers.rangeKeys seed

/-- getRandomChat selects a random chat from this user's chat rooms, or error if
none exist.  The inner `Except` is the Go `error`; a key that the map did not hold
would give a nil `*ChatRoom`, which both callers dereference at once. -/
def User.getRandomChat (u : User) (r : Rand) : Except Fatal (Except String ChatRoom) :=
  let chatCount := u.UserChats.len
  if chatCount = 0 then
    .ok (.error "No chats available")
  else
    let chatIDs := u.UserChats.rangeKeys r.keys
    match randIntn r.intn chatCount with
    | .error f => .error f
    | .ok randomIndex =>
      match sliceIndex chatIDs randomIndex with
      | .error f => .error f
      | .ok chatID =>
        match u.UserChats.lookup chatID with
        | none => .error .nilDereference
        | some room => .ok (.ok room)

/-- handleNewUser adds the newUser to the list of this user's OtherUsers and
returns the ids of the users seen so far. -/
def User.handleNewUser (u : User) (newUser : UserRef) (seed : Nat) : User × List String :=
  let u1 := { u with OtherUsers := u.OtherUsers.insert newUser.ID newUser }
  (u1, u1.otherUserIDs seed)

/-- The loop of `handleNewChat` over `newChat.UserIDs`, from the flag `isInChat`. -/
def User.scanMembers (u : User) (userIDs : List String) (isInChat : Bool) : Bool :=
  userIDs.foldl (fun acc userID => if u.ID = userID then true else acc) isInChat

/-- handleNewChat adds the newChat to the list of this user's UserChats, provided
they are in it. -/
def User.handleNewChat (u : User) (newChat : ChatRoom) : User × Bool :=
  let isInChat := u.scanMembers newChat.UserIDs false
  if isInChat then
    ({ u with UserChats := u.UserChats.insert newChat.ID newChat }, isInChat)
  else
    (u, isInChat)

/-- handleChatClose deletes the chat identified by chatID from the list of this
user's UserChats. -/
def User.handleChatClose (u : User) (chatID : String) : User :=
  { u with UserChats := u.UserChats.erase chatID }

/-- The goroutine body `u.OtherUsers[userID].EventChannel <- event`: a user id the
map does not hold yields a nil `*User`, and the field access through it panics. -/
def User.sendVia (u : User) (event : ChatEvent) (userID : String) : Except Fatal Send :=
  match u.OtherUsers.lookup userID with
  | none => .error .nilDereference
  | some user => .ok { target := user, event := event }

/-- The translation loop of `NewChat`: `ids = append(ids, otherUserIDs[v])` for
every `v` of `perm`. -/
def pickIDs (otherUserIDs : List String) : List Nat → Except Fatal (List String)
  | [] => .ok []
  | v :: perm =>
    match sliceIndex otherUserIDs v with
    | .error f => .error f
    | .ok id =>
      match pickIDs otherUserIDs perm with
      | .error f => .error f
      | .ok ids => .ok (id :: ids)

/-- The id of the room of `chosen` peers created by `creator`: the creator's id
is appended, the ids are sorted and then joined with an underscore. -/
def chatroomIDOf (creator : String) (chosen : List String) : String :=
  stringsJoin (sortStrings (chosen ++ [creator])) "_"

/-- The first half of `NewChat`: the size draw, the permutation and the slice
`ids` of the chosen peers, before the creator is appended. -/
def User.chooseMembers (u : User) (r : Rand) : Except Fatal (List String) :=
  match randIntn r.intn u.OtherUsers.len with
  | .error f => .error f
  | .ok n =>
    -- total size of new chat, including creator
    let size := n + 2
    -- select size-1 other users randomly
    let perm := randPerm r.perm (size - 1)
    pickIDs (u.otherUserIDs r.keys) perm

/-- NewChat creates a new chat room and notifies all other users about it. -/
def User.NewChat (u : User) (r : Rand) : Except Fatal Result :=
  match u.chooseMembers r with
  | .error f => .error f
  | .ok chosen =>
    -- include creator ID, make chatroom ID's deterministic
    let ids := sortStrings (chosen ++ [u.ID])
    let chatroomID := stringsJoin ids "_"
    -- only start a new chat if it's unique
    if (u.UserChats.lookup chatroomID).isSome then
      .ok { user := u, sent := [], ret := .error ("Duplicated chat ID: " ++ chatroomID) }
    else
      let chatroom : ChatRoom := { ID := stringsJoin ids "_", UserIDs := ids }
      let event : ChatEvent :=
        { User := u.ref, ChatRoom := chatroom, Message := "New chat created",
          Typ := ChatEventNew, Ts := r.now }
      -- notify ALL other users of the new chat room
      let sent := (u.OtherUsers.rangeValues r.fanout).map
        (fun user => ({ target := user, event := event } : Send))
      -- save the new chat in creator's cache
      .ok { user := { u with UserChats := u.UserChats.insert chatroomID chatroom },
            sent := sent, ret := .ok event }

/-- The fan-out loop of `NewMessage` over `selectedChat.UserIDs`. -/
def User.sendToMembers (u : User) (event : ChatEvent) : List String → Except Fatal (List Send)
  | [] => .ok []
  | userID :: rest =>
    if userID ≠ u.ID then -- omit the message author
      match u.sendVia event userID with
      | .error f => .error f
      | .ok s =>
        match u.sendToMembers event rest with
        | .error f => .error f
        | .ok ss => .ok (s :: ss)
    else
      u.sendToMembers event rest

/-- NewMessage sends a message from this user to one of their chat rooms. -/
def User.NewMessage (u : User) (r : Rand) : Except Fatal Result :=
  match u.getRandomChat r with
  | .error f => .error f
  | .ok (.error err) => .ok { user := u, sent := [], ret := .error err }
  | .ok (.ok selectedChat) =>
    -- prepare the message and send it to other users in the same chat room
    let ts := r.now
    let event : ChatEvent :=
      { User := u.ref, ChatRoom := selectedChat,
        Message := "Hello from " ++ u.ID ++ " at " ++ formatClock ts,
        Typ := ChatEventMessage, Ts := ts }
    match u.sendToMembers event selectedChat.UserIDs with
    | .error f => .error f
    | .ok sent => .ok { user := u, sent := sent, ret := .ok event }

/-- The fan-out loop of `CloseChat` over the keys of `OtherUsers`. -/
def User.sendToAll (u : User) (event : ChatEvent) : List String → Except Fatal (List Send)
  | [] => .ok []
  | userID :: rest =>
    match u.sendVia event userID with
    | .error f => .error f
    | .ok s =>
      match u.sendToAll event rest with
      | .error f => .error f
      | .ok ss => .ok (s :: ss)

/-- CloseChat closes one of this user's chat rooms. -/
def User.CloseChat (u : User) (r : Rand) : Except Fatal Result :=
  match u.getRandomChat r with
  | .error f => .error f
  | .ok (.error err) => .ok { user := u, sent := [], ret := .error err }
  | .ok (.ok selectedChat) =>
    -- generate the close event and send it to ALL users
    let event : ChatEvent :=
      { User := u.ref, ChatRoom := selectedChat, Message := "",
        Typ := ChatEventClose, Ts := r.now }
    match u.sendToAll event (u.OtherUsers.rangeKeys r.fanout) with
    | .error f => .error f
    | .ok sent =>
      .ok { user := { u with UserChats := u.UserChats.erase selectedChat.ID },
            sent := sent, ret := .ok event }

/-! ## Sequences of operations on one user -/

/-- One thing that can happen to a user: an arrival on one of its channels, handed
to its handler, or one of the three actions of its timer. -/
inductive Op where
  | newUser (newUser : UserRef) (seed : Nat)
  | newChatEvent (newChat : ChatRoom)
  | chatClose (chatID : String)
  | newChat (r : Rand)
  | newMessage (r : Rand)
  | closeChat (r : Rand)

/-- The user after one operation; a panic ends the run. -/
def User.apply (u : User) : Op → Except Fatal User
  | .newUser p seed => .ok (u.handleNewUser p seed).1
  | .newChatEvent room => .ok (u.handleNewChat room).1
  | .chatClose chatID => .ok (u.handleChatClose chatID)
  | .newChat r => (u.NewChat r).map Result.user
  | .newMessage r => (u.NewMessage r).map Result.user
  | .closeChat r => (u.CloseChat r).map Result.user

/-- The user after a finite sequence of operations. -/
def User.execute (u : User) : List Op → Except Fatal User
  | [] => .ok u
  | op :: ops =>
    match u.apply op with
    | .error f => .error f
    | .ok u1 => u1.execute ops

/-- The user as `main` constructs it: both maps empty. -/
def User.mkUser (ID : String) (addr : Nat) : User :=
  { ID := ID, addr := addr, OtherUsers := ∅, UserChats := ∅ }

/-! ## Vocabulary of the statements -/

/-- Every room a user holds lists the user among its members. -/
def User.MemberInv (u : User) : Prop :=
  ∀ k room, u.UserChats.lookup k = some room → u.ID ∈ room.UserIDs

/-- The room `NewChat` builds once `chosen` peers are selected. -/
def User.roomFor (u : User) (chosen : List String) : ChatRoom :=
  { ID := chatroomIDOf u.ID chosen, UserIDs := sortStrings (chosen ++ [u.ID]) }

/-- The event `NewChat` builds for that room. -/
def User.newChatEventFor (u : User) (chosen : List String) (now : Nat) : ChatEvent :=
  { User := u.ref, ChatRoom := u.roomFor chosen, Message := "New chat created",
    Typ := ChatEventNew, Ts := now }

/-- The id derived from a list of member ids: sorted, then joined with `"_"`
(`NewChat` applies this to the chosen peers followed by the creator). -/
def deriveID (members : List String) : String := stringsJoin (sortStrings members) "_"

/-- An id that starts with `pre` and has no underscore after it, such as the ids
`user_<n>` that `main` hands out (with `pre = "user_"`). -/
def plainID (pre id : String) : Bool :=
  pre.data.isPrefixOf id.data && !(id.data.drop pre.data.length).contains '_'

/-- What follows the first element in the characters of a join. -/
def joinTail : List String → List Char
  | [] => []
  | y :: ys => '_' :: (stringsJoin (y :: ys) "_").data

/-- The sends of `NewMessage` for the member ids of the selected room: one per id
other than the sender's own, to the peer stored under that id. -/
def User.memberSends (u : User) (event : ChatEvent) (userIDs : List String) : List Send :=
  (userIDs.filter (fun userID => userID ≠ u.ID)).filterMap
    (fun userID => (u.OtherUsers.lookup userID).map (fun user => Send.mk user event))

/-- The event `NewMessage` builds for the selected room. -/
def User.messageEventFor (u : User) (room : ChatRoom) (now : Nat) : ChatEvent :=
  { User := u.ref, ChatRoom := room,
    Message := "Hello from " ++ u.ID ++ " at " ++ formatClock now,
    Typ := ChatEventMessage, Ts := now }

/-! ## Concrete users for the worked examples -/

/-- The user `A` that knows `B` and already holds the room `A_B`. -/
def userWithRoom : User :=
  (((User.mkUser "A" 1).handleNewUser ⟨"B", 2⟩ 0).1.handleNewChat ⟨"A_B", ["A", "B"]⟩).1

/-- The user `A` that knows `B`, `C` and `D`. -/
def userWithPeers : User :=
  ((((User.mkUser "A" 1).handleNewUser ⟨"B", 2⟩ 0).1.handleNewUser ⟨"C", 3⟩ 0).1.handleNewUser
    ⟨"D", 4⟩ 0).1

/-- The user `A` that knows `B` and was told of a room listing `A`, `B` and a user
`Z` it never heard of. -/
def userWithStranger : User :=
  (((User.mkUser "A" 1).handleNewUser ⟨"B", 2⟩ 0).1.handleNewChat
    ⟨"A_B_Z", ["A", "B", "Z"]⟩).1

/-! ## The loop of `Start` -/

/-- The event branch of `Start`: a NEW event goes to `handleNewChat`, a MESSAGE event
is only logged, a CLOSE event goes to `handleChatClose`. -/
def User.handleEvent (u : User) (event : ChatEvent) : User :=
  if event.Typ = ChatEventNew then
    (u.handleNewChat event.ChatRoom).1
  else if event.Typ = ChatEventMessage then
    u
  else if event.Typ = ChatEventClose then
    u.handleChatClose event.ChatRoom.ID
  else
    u

/-- What the timer branch of `Start` does for a value of the `switch`. -/
inductive TimerAction where
  | newChat
  | newMessage
  | closeChat
  | noAction
  deriving DecidableEq, Repr

/-- The `switch ChatEventType(rand.Intn(10))` of the timer branch. -/
def timerSwitch (n : Nat) : TimerAction :=
  if (n : ChatEventType) = ChatEventNew then .newChat
  else if (n : ChatEventType) = ChatEventMessage then .newMessage
  else if (n : ChatEventType) = ChatEventClose then .closeChat
  else .noAction -- default: no action

/-- What one pass through the timer branch leaves behind: the user afterwards and the
sends it spawned. -/
structure Tick where
  user : User
  sent : List Send

/-- The timer branch of `Start`: every second, one of 3 actions may be initiated,
depending on the draw `rand.Intn(10)`; the outcome of the action is only logged. -/
def User.timerBranch (u : User) (raw : Nat) (r : Rand) : Except Fatal Tick :=
  match randIntn raw 10 with
  | .error f => .error f
  | .ok n =>
    match timerSwitch n with
    | .newChat => (u.NewChat r).map (fun res => Tick.mk res.user res.sent)
    | .newMessage => (u.NewMessage r).map (fun res => Tick.mk res.user res.sent)
    | .closeChat => (u.CloseChat r).map (fun res => Tick.mk res.user res.sent)
    | .noAction => .ok (Tick.mk u [])

/-! ## Several users and the delivery of events -/

/-- The users of one simulation. -/
abbrev World := List User

/-- The arrival of one send: the user it is addressed to takes the event through the
event branch of its loop. -/
def World.deliver (w : World) (s : Send) : World :=
  w.map (fun u => if u.addr = s.target.addr then u.handleEvent s.event else u)

/-- The arrival of every send of a list. -/
def World.deliverAll (w : World) (sends : List Send) : World :=
  sends.foldl World.deliver w

/-- The user at address `addr` takes the place of its earlier state. -/
def World.put (w : World) (u1 : User) : World :=
  w.map (fun u => if u.addr = u1.addr then u1 else u)

/-- One action of a user of the world, followed by the arrival of everything it
sent. -/
def World.act (w : World) (res : Result) : World :=
  (w.put res.user).deliverAll res.sent

/-- The ids of the users that a list of sends is addressed to. -/
def recipients (sends : List Send) : List String :=
  sends.map (fun s => s.target.ID)

/-- The state of the user with id `ID` in a world. -/
def World.find (w : World) (ID : String) : Option User :=
  List.find? (fun u => u.ID = ID) w

/-! ## More vocabulary of the statements -/

/-- Every room a user holds is stored under its own id. -/
def User.KeyInv (u : User) : Prop :=
  ∀ k room, u.UserChats.lookup k = some room → room.ID = k

/-- Every peer a user knows is stored under the peer's own id. -/
def User.PeerInv (u : User) : Prop :=
  ∀ k p, u.OtherUsers.lookup k = some p → p.ID = k

/-- The values of a map, one per entry. -/
def GoMap.values {V : Type} (m : GoMap V) : List V := m.entries.map (fun e => e.2)

/-- The event `CloseChat` builds for the selected room. -/
def User.closeEventFor (u : User) (room : ChatRoom) (now : Nat) : ChatEvent :=
  { User := u.ref, ChatRoom := room, Message := "", Typ := ChatEventClose, Ts := now }

/-- The user `A` that received its own presence notification. -/
def userKnowingItself : User := ((User.mkUser "A" 1).handleNewUser ⟨"A", 1⟩ 0).1

/-- The user `A` that knows `B`, `C` and `D` and holds the room of `A`, `B` and `D`. -/
def userInRoom : User := (userWithPeers.handleNewChat ⟨"A_B_D", ["A", "B", "D"]⟩).1

/-- Users `A`, `B`, `C` after the bootstrap of `main`: each knows the other two and
none is in a room. -/
def userA : User :=
  (((User.mkUser "A" 1).handleNewUser ⟨"B", 2⟩ 0).1.handleNewUser ⟨"C", 3⟩ 0).1

/-- User `B` after the bootstrap. -/
def userB : User :=
  (((User.mkUser "B" 2).handleNewUser ⟨"A", 1⟩ 0).1.handleNewUser ⟨"C", 3⟩ 0).1

/-- User `C` after the bootstrap. -/
def userC : User :=
  (((User.mkUser "C" 3).handleNewUser ⟨"A", 1⟩ 0).1.handleNewUser ⟨"B", 2⟩ 0).1

/-- The world of `A`, `B` and `C` after the bootstrap. -/
def world0 : World := [userA, userB, userC]

/-- The room of `A` and `B`. -/
def roomAB : ChatRoom := { ID := "A_B", UserIDs := ["A", "B"] }

/-- User `A` after joining the room of `A` and `B`. -/
def userA1 : User := { userA with UserChats := userA.UserChats.insert "A_B" roomAB }

/-- User `B` after joining the room of `A` and `B`. -/
def userB1 : User := { userB with UserChats := userB.UserChats.insert "A_B" roomAB }

/-- The world in which `A` and `B` are in their room and `C` is in none. -/
def world1 : World := [userA1, userB1, userC]

/-! ## Facts about the runtime pieces -/

theorem pickOrder_perm {α : Type} (seed : Nat) (l : List α) : (pickOrder seed l).Perm l := by
  unfold pickOrder
  have hpos : 0 < (l.permutations').length := by
    rw [List.length_pos]
    intro h
    have : l ∈ l.permutations' := List.mem_permutations'.2 (List.Perm.refl l)
    rw [h] at this
    exact List.not_mem_nil _ this
  have hlt : seed % (l.permutations').length < (l.permutations').length := Nat.mod_lt _ hpos
  rw [List.getD_eq_getElem _ _ hlt]
  exact List.mem_permutations'.1 (List.getElem_mem hlt)

theorem pickOrder_complete {α : Type} (l l1 : List α) (h : l1.Perm l) :
    ∃ seed, pickOrder seed l = l1 := by
  have hmem : l1 ∈ l.permutations' := List.mem_permutations'.2 h
  obtain ⟨i, hi, hget⟩ := List.getElem_of_mem hmem
  refine ⟨i, ?_⟩
  unfold pickOrder
  rw [Nat.mod_eq_of_lt hi, List.getD_eq_getElem _ _ hi]
  exact hget

theorem lexLE_refl : ∀ a : List Char, lexLE a a = true
  | [] => rfl
  | c :: cs => by simp [lexLE, lexLE_refl cs]

theorem lexLE_total : ∀ a b : List Char, lexLE a b = true ∨ lexLE b a = true
  | [], _ => Or.inl rfl
  | _ :: _, [] => Or.inr rfl
  | a :: as, b :: bs => by
    rcases Nat.lt_trichotomy a.toNat b.toNat with h | h | h
    · left; simp [lexLE, h]
    · rcases lexLE_total as bs with h1 | h1
      · left; simp [lexLE, h, h1]
      · right; simp [lexLE, h, h1]
    · right; simp [lexLE, h]

theorem lexLE_antisymm : ∀ a b : List Char, lexLE a b = true → lexLE b a = true → a = b
  | [], [], _, _ => rfl
  | [], _ :: _, _, h => by simp [lexLE] at h
  | _ :: _, [], h, _ => by simp [lexLE] at h
  | a :: as, b :: bs, h1, h2 => by
    rcases Nat.lt_trichotomy a.toNat b.toNat with h | h | h
    · have := Nat.lt_asymm h
      simp [lexLE, h, this] at h2
    · have hab : a = b := Char.ext (UInt32.ext h)
      subst hab
      simp [lexLE] at h1 h2
      rw [lexLE_antisymm as bs h1 h2]
    · have := Nat.lt_asymm h
      simp [lexLE, h, this] at h1

theorem lexLE_trans : ∀ a b c : List Char, lexLE a b = true → lexLE b c = true → lexLE a c = true
  | [], _, _, _, _ => rfl
  | _ :: _, [], _, h, _ => by simp [lexLE] at h
  | _ :: _, _ :: _, [], _, h => by simp [lexLE] at h
  | a :: as, b :: bs, c :: cs, h1, h2 => by
    simp only [lexLE] at h1 h2 ⊢
    by_cases hab : a.toNat < b.toNat
    · by_cases hbc : b.toNat < c.toNat
      · have : a.toNat < c.toNat := Nat.lt_trans hab hbc
        simp [this]
      · by_cases hcb : c.toNat < b.toNat
        · simp [hbc, hcb] at h2
        · have : a.toNat < c.toNat := by omega
          simp [this]
    · by_cases hba : b.toNat < a.toNat
      · simp [hab, hba] at h1
      · simp only [hab, hba, if_false] at h1
        by_cases hbc : b.toNat < c.toNat
        · have : a.toNat < c.toNat := by omega
          simp [this]
        · by_cases hcb : c.toNat < b.toNat
          · simp [hbc, hcb] at h2
          · simp only [hbc, hcb, if_false] at h2
            have h3 : ¬ a.toNat < c.toNat := by omega
            have h4 : ¬ c.toNat < a.toNat := by omega
            simp only [h3, h4, if_false]
            exact lexLE_trans as bs cs h1 h2

theorem sortStrings_perm (ids : List String) : (sortStrings ids).Perm ids :=
  List.perm_insertionSort strLE ids

theorem sortStrings_sorted (ids : List String) : (sortStrings ids).Sorted strLE := by
  haveI : IsTotal String strLE := ⟨fun a b => lexLE_total a.data b.data⟩
  haveI : IsTrans String strLE := ⟨fun a b c h1 h2 => lexLE_trans a.data b.data c.data h1 h2⟩
  exact List.sorted_insertionSort strLE ids

theorem sortStrings_congr {xs ys : List String} (h : xs.Perm ys) :
    sortStrings xs = sortStrings ys := by
  haveI : IsAntisymm String strLE :=
    ⟨fun a b h1 h2 => String.ext (lexLE_antisymm a.data b.data h1 h2)⟩
  exact List.eq_of_perm_of_sorted
    (((sortStrings_perm xs).trans h).trans (sortStrings_perm ys).symm)
    (sortStrings_sorted xs) (sortStrings_sorted ys)

theorem mem_sortStrings {x : String} {ids : List String} : x ∈ sortStrings ids ↔ x ∈ ids :=
  (sortStrings_perm ids).mem_iff

theorem len_empty {V : Type} : (∅ : GoMap V).len = 0 := rfl

theorem eq_empty_iff_len {V : Type} (m : GoMap V) : m = ∅ ↔ m.len = 0 := by
  constructor
  · intro h; rw [h]; rfl
  · intro h
    apply AList.ext
    have hk : m.entries.map Sigma.fst = [] := List.length_eq_zero.1 h
    simpa using hk

theorem erase_idem {V : Type} (k : String) (m : GoMap V) : (m.erase k).erase k = m.erase k := by
  apply AList.ext
  exact List.kerase_of_not_mem_keys (List.not_mem_keys_kerase k m.nodupKeys)

theorem rangeKeys_perm {V : Type} (seed : Nat) (m : GoMap V) : (m.rangeKeys seed).Perm m.keys :=
  pickOrder_perm seed m.keys

theorem mem_rangeKeys {V : Type} {seed : Nat} {m : GoMap V} {k : String} :
    k ∈ m.rangeKeys seed ↔ k ∈ m.keys :=
  (rangeKeys_perm seed m).mem_iff

theorem length_rangeKeys {V : Type} (seed : Nat) (m : GoMap V) :
    (m.rangeKeys seed).length = m.len :=
  (rangeKeys_perm seed m).length_eq

theorem randPerm_perm (seed n : Nat) : (randPerm seed n).Perm (List.range n) :=
  pickOrder_perm seed (List.range n)

theorem scanMembers_eq (u : User) (userIDs : List String) (b : Bool) :
    u.scanMembers userIDs b = (b || decide (u.ID ∈ userIDs)) := by
  unfold User.scanMembers
  induction userIDs generalizing b with
  | nil => simp
  | cons x xs ih =>
    rw [List.foldl_cons, ih]
    by_cases h : u.ID = x
    · simp [h]
    · cases b <;> simp [h]

theorem handleNewChat_snd (u : User) (newChat : ChatRoom) :
    (u.handleNewChat newChat).2 = decide (u.ID ∈ newChat.UserIDs) := by
  unfold User.handleNewChat
  simp only [scanMembers_eq, Bool.false_or]
  split <;> rfl

theorem handleNewChat_fst_of_mem (u : User) (newChat : ChatRoom) (h : u.ID ∈ newChat.UserIDs) :
    (u.handleNewChat newChat).1 =
      { u with UserChats := u.UserChats.insert newChat.ID newChat } := by
  unfold User.handleNewChat
  simp [scanMembers_eq, h]

theorem handleNewChat_fst_of_not_mem (u : User) (newChat : ChatRoom)
    (h : u.ID ∉ newChat.UserIDs) : (u.handleNewChat newChat).1 = u := by
  unfold User.handleNewChat
  simp [scanMembers_eq, h]

theorem memberInv_insert (u : User) (k : String) (room : ChatRoom) (hinv : u.MemberInv)
    (hroom : u.ID ∈ room.UserIDs) :
    User.MemberInv { u with UserChats := u.UserChats.insert k room } := by
  intro k1 room1 h
  by_cases hk : k1 = k
  · subst hk
    simp only [AList.lookup_insert, Option.some.injEq] at h
    subst h
    exact hroom
  · simp only [AList.lookup_insert_ne hk] at h
    exact hinv k1 room1 h

theorem memberInv_erase (u : User) (k : String) (hinv : u.MemberInv) :
    User.MemberInv { u with UserChats := u.UserChats.erase k } := by
  intro k1 room1 h
  by_cases hk : k1 = k
  · subst hk
    simp [AList.lookup_erase] at h
  · simp only [AList.lookup_erase_ne hk] at h
    exact hinv k1 room1 h

/-- The shapes of a returned `NewChat`: the duplicate refusal or the creation. -/
theorem NewChat_ok (u : User) (r : Rand) (res : Result) (h : u.NewChat r = .ok res) :
    ∃ chosen, u.chooseMembers r = .ok chosen ∧
      (((u.UserChats.lookup (chatroomIDOf u.ID chosen)).isSome = true ∧
          res.user = u ∧ res.sent = [] ∧
          res.ret = .error ("Duplicated chat ID: " ++ chatroomIDOf u.ID chosen)) ∨
       (u.UserChats.lookup (chatroomIDOf u.ID chosen) = none ∧
          res.user = { u with
            UserChats := u.UserChats.insert (chatroomIDOf u.ID chosen) (u.roomFor chosen) } ∧
          res.sent = (u.OtherUsers.rangeValues r.fanout).map
            (fun user => Send.mk user (u.newChatEventFor chosen r.now)) ∧
          res.ret = .ok (u.newChatEventFor chosen r.now))) := by
  unfold User.NewChat at h
  split at h
  · cases h
  · rename_i chosen hch
    refine ⟨chosen, hch, ?_⟩
    simp only at h
    split at h
    · rename_i hdup
      left
      cases h
      exact ⟨hdup, rfl, rfl, rfl⟩
    · rename_i hdup
      right
      cases h
      refine ⟨?_, rfl, rfl, rfl⟩
      simpa [chatroomIDOf] using hdup

theorem len_eq_zero_iff {V : Type} (m : GoMap V) : m.len = 0 ↔ m.keys = [] := by
  unfold GoMap.len
  exact List.length_eq_zero

theorem getRandomChat_of_empty (u : User) (r : Rand) (h : u.UserChats.len = 0) :
    u.getRandomChat r = .ok (.error "No chats available") := by
  unfold User.getRandomChat
  simp [h]

theorem getRandomChat_of_nonempty (u : User) (r : Rand) (h : u.UserChats.len ≠ 0) :
    ∃ chatID room, chatID ∈ u.UserChats.keys ∧ u.UserChats.lookup chatID = some room ∧
      (u.UserChats.rangeKeys r.keys)[r.intn % u.UserChats.len]? = some chatID ∧
      u.getRandomChat r = .ok (.ok room) := by
  have hlt : r.intn % u.UserChats.len < (u.UserChats.rangeKeys r.keys).length := by
    rw [length_rangeKeys]
    exact Nat.mod_lt _ (Nat.pos_of_ne_zero h)
  have hmem : (u.UserChats.rangeKeys r.keys)[r.intn % u.UserChats.len] ∈ u.UserChats.keys :=
    mem_rangeKeys.1 (List.getElem_mem hlt)
  have hsome : (u.UserChats.lookup
      ((u.UserChats.rangeKeys r.keys)[r.intn % u.UserChats.len])).isSome = true :=
    AList.lookup_isSome.2 (AList.mem_keys.2 hmem)
  obtain ⟨room, hroom⟩ := Option.isSome_iff_exists.1 hsome
  refine ⟨_, room, hmem, hroom, List.getElem?_eq_getElem hlt, ?_⟩
  unfold User.getRandomChat
  simp only [h, if_false, randIntn, sliceIndex, List.getElem?_eq_getElem hlt, hroom]

theorem NewMessage_user (u : User) (r : Rand) (res : Result) (h : u.NewMessage r = .ok res) :
    res.user = u := by
  unfold User.NewMessage at h
  split at h
  · cases h
  · cases h; rfl
  · simp only at h
    split at h
    · cases h
    · cases h; rfl

theorem CloseChat_user (u : User) (r : Rand) (res : Result) (h : u.CloseChat r = .ok res) :
    res.user = u ∨ ∃ room, u.getRandomChat r = .ok (.ok room) ∧
      res.user = { u with UserChats := u.UserChats.erase room.ID } := by
  unfold User.CloseChat at h
  split at h
  · cases h
  · cases h; exact Or.inl rfl
  · rename_i room hroom
    simp only at h
    split at h
    · cases h
    · cases h; exact Or.inr ⟨room, hroom, rfl⟩

theorem NewChat_user (u : User) (r : Rand) (res : Result) (h : u.NewChat r = .ok res) :
    res.user = u ∨ ∃ chosen, res.user = { u with
      UserChats := u.UserChats.insert (chatroomIDOf u.ID chosen) (u.roomFor chosen) } := by
  obtain ⟨chosen, _, h1 | h1⟩ := NewChat_ok u r res h
  · exact Or.inl h1.2.1
  · exact Or.inr ⟨chosen, h1.2.1⟩

theorem creator_mem_roomFor (u : User) (chosen : List String) :
    u.ID ∈ (u.roomFor chosen).UserIDs := by
  unfold User.roomFor
  simp [mem_sortStrings]

/-- One operation keeps the user's id and the membership of every stored room. -/
theorem apply_memberInv (u u1 : User) (op : Op) (hinv : u.MemberInv)
    (h : u.apply op = .ok u1) : u1.ID = u.ID ∧ u1.MemberInv := by
  cases op with
  | newUser p seed =>
    simp only [User.apply, User.handleNewUser, Except.ok.injEq] at h
    subst h
    exact ⟨rfl, hinv⟩
  | newChatEvent room =>
    simp only [User.apply, Except.ok.injEq] at h
    subst h
    by_cases hm : u.ID ∈ room.UserIDs
    · rw [handleNewChat_fst_of_mem u room hm]
      exact ⟨rfl, memberInv_insert u _ _ hinv hm⟩
    · rw [handleNewChat_fst_of_not_mem u room hm]
      exact ⟨rfl, hinv⟩
  | chatClose chatID =>
    simp only [User.apply, User.handleChatClose, Except.ok.injEq] at h
    subst h
    exact ⟨rfl, memberInv_erase u _ hinv⟩
  | newChat r =>
    simp only [User.apply] at h
    cases hres : u.NewChat r with
    | error f => rw [hres] at h; cases h
    | ok res =>
      rw [hres] at h
      simp only [Except.map, Except.ok.injEq] at h
      subst h
      rcases NewChat_user u r res hres with h1 | ⟨chosen, h1⟩
      · rw [h1]; exact ⟨rfl, hinv⟩
      · rw [h1]
        exact ⟨rfl, memberInv_insert u _ _ hinv (creator_mem_roomFor u chosen)⟩
  | newMessage r =>
    simp only [User.apply] at h
    cases hres : u.NewMessage r with
    | error f => rw [hres] at h; cases h
    | ok res =>
      rw [hres] at h
      simp only [Except.map, Except.ok.injEq] at h
      subst h
      rw [NewMessage_user u r res hres]
      exact ⟨rfl, hinv⟩
  | closeChat r =>
    simp only [User.apply] at h
    cases hres : u.CloseChat r with
    | error f => rw [hres] at h; cases h
    | ok res =>
      rw [hres] at h
      simp only [Except.map, Except.ok.injEq] at h
      subst h
      rcases CloseChat_user u r res hres with h1 | ⟨room, _, h1⟩
      · rw [h1]; exact ⟨rfl, hinv⟩
      · rw [h1]
        exact ⟨rfl, memberInv_erase u _ hinv⟩

theorem execute_memberInv (ops : List Op) : ∀ (u u1 : User), u.MemberInv →
    u.execute ops = .ok u1 → u1.ID = u.ID ∧ u1.MemberInv := by
  induction ops with
  | nil =>
    intro u u1 hinv h
    simp only [User.execute, Except.ok.injEq] at h
    subst h
    exact ⟨rfl, hinv⟩
  | cons op ops ih =>
    intro u u1 hinv h
    simp only [User.execute] at h
    cases hstep : u.apply op with
    | error f => rw [hstep] at h; cases h
    | ok u2 =>
      rw [hstep] at h
      obtain ⟨hid, hinv2⟩ := apply_memberInv u u2 op hinv hstep
      obtain ⟨hid1, hinv1⟩ := ih u2 u1 hinv2 h
      exact ⟨hid1.trans hid, hinv1⟩


theorem pickIDs_ok (ids : List String) : ∀ (perm : List Nat), (∀ v ∈ perm, v < ids.length) →
    pickIDs ids perm = .ok (perm.filterMap (fun v => ids[v]?)) ∧
      (perm.filterMap (fun v => ids[v]?)).length = perm.length := by
  intro perm
  induction perm with
  | nil => intro _; exact ⟨rfl, rfl⟩
  | cons v perm ih =>
    intro h
    have hv : v < ids.length := h v (List.mem_cons_self _ _)
    obtain ⟨h1, h2⟩ := ih (fun w hw => h w (List.mem_cons_of_mem _ hw))
    have hget : ids[v]? = some ids[v] := List.getElem?_eq_getElem hv
    constructor
    · simp only [pickIDs, sliceIndex, hget, h1, List.filterMap_cons]
    · simp only [List.filterMap_cons, hget, List.length_cons, h2]

theorem pickIDs_error (ids : List String) (f : Fatal) : ∀ (perm : List Nat),
    pickIDs ids perm = .error f → f = .indexOutOfRange ∧ ∃ v ∈ perm, ids.length ≤ v := by
  intro perm
  induction perm with
  | nil => intro h; simp [pickIDs] at h
  | cons v perm ih =>
    intro h
    simp only [pickIDs, sliceIndex] at h
    cases hget : ids[v]? with
    | none =>
      rw [hget] at h
      simp only [Except.error.injEq] at h
      exact ⟨h.symm, v, List.mem_cons_self _ _, List.getElem?_eq_none_iff.1 hget⟩
    | some id =>
      rw [hget] at h
      simp only at h
      cases hrest : pickIDs ids perm with
      | error g =>
        rw [hrest] at h
        simp only [Except.error.injEq] at h
        subst h
        obtain ⟨hf, w, hw, hle⟩ := ih hrest
        exact ⟨hf, w, List.mem_cons_of_mem _ hw, hle⟩
      | ok chosen =>
        rw [hrest] at h
        cases h

theorem nodup_filterMap_getElem {ids : List String} (hids : ids.Nodup) {perm : List Nat}
    (hperm : perm.Nodup) : (perm.filterMap (fun v => ids[v]?)).Nodup := by
  refine List.Nodup.filterMap ?_ hperm
  intro a a1 b ha ha1
  simp only [Option.mem_def] at ha ha1
  obtain ⟨hlt, hget⟩ := List.getElem?_eq_some_iff.1 ha
  obtain ⟨hlt1, hget1⟩ := List.getElem?_eq_some_iff.1 ha1
  exact (List.Nodup.getElem_inj_iff hids).1 (hget.trans hget1.symm)

/-- With at least one known peer the selection of `NewChat` goes through: the size
is `n + 2` for the draw `n < len(OtherUsers)`, and the `n + 1` chosen ids are
pairwise distinct keys of `OtherUsers`. -/
theorem chooseMembers_ok (u : User) (r : Rand) (hne : u.OtherUsers.len ≠ 0) :
    ∃ chosen, u.chooseMembers r = .ok chosen ∧
      chosen.length = r.intn % u.OtherUsers.len + 1 ∧ chosen.Nodup ∧
      ∀ id ∈ chosen, id ∈ u.OtherUsers.keys := by
  have hn : r.intn % u.OtherUsers.len < u.OtherUsers.len :=
    Nat.mod_lt _ (Nat.pos_of_ne_zero hne)
  have hpp := randPerm_perm r.perm (r.intn % u.OtherUsers.len + 1)
  have hrange : ∀ v ∈ randPerm r.perm (r.intn % u.OtherUsers.len + 1),
      v < (u.otherUserIDs r.keys).length := by
    intro v hv
    have := List.mem_range.1 (hpp.mem_iff.1 hv)
    unfold User.otherUserIDs
    rw [length_rangeKeys]
    omega
  obtain ⟨h1, h2⟩ := pickIDs_ok (u.otherUserIDs r.keys) _ hrange
  refine ⟨(randPerm r.perm (r.intn % u.OtherUsers.len + 1)).filterMap
    (fun v => (u.otherUserIDs r.keys)[v]?), ?_, ?_, ?_, ?_⟩
  · unfold User.chooseMembers
    simp only [randIntn, hne, if_false, Nat.add_sub_cancel]
    exact h1
  · rw [h2, hpp.length_eq, List.length_range]
  · apply nodup_filterMap_getElem
    · exact (rangeKeys_perm r.keys u.OtherUsers).nodup_iff.2 u.OtherUsers.keys_nodup
    · exact hpp.nodup_iff.2 (List.nodup_range _)
  · intro id hid
    obtain ⟨v, _, hv⟩ := List.mem_filterMap.1 hid
    exact mem_rangeKeys.1 (List.getElem?_mem hv)

theorem chooseMembers_of_empty (u : User) (r : Rand) (h : u.OtherUsers.len = 0) :
    u.chooseMembers r = .error .intnNonPositive := by
  unfold User.chooseMembers
  simp [randIntn, h]

/-- C1: membership invariant.  A user that starts with empty `UserChats` and goes
through any finite sequence of `handleNewUser`, `handleNewChat` (on arbitrary
rooms), `handleChatClose`, `NewChat`, `NewMessage` and `CloseChat` (with arbitrary
random outcomes) keeps its id, and every room stored in its `UserChats` has that
id among its `UserIDs`. -/
theorem C1_membership_invariant (u0 u : User) (ops : List Op)
    (hempty : u0.UserChats = ∅) (hrun : u0.execute ops = .ok u) :
    u.ID = u0.ID ∧
      ∀ chatID room, u.UserChats.lookup chatID = some room → u.ID ∈ room.UserIDs := by
  have h0 : u0.MemberInv := by
    intro k room h
    rw [hempty] at h
    simp at h
  exact execute_memberInv ops u0 u h0 hrun

/-- Witness of C1: user `A` learns of `B` and `C`, creates a room, is told of one room
it is in and of one it is not in, and closes a chat. -/
theorem C1_membership_invariant_witness :
    (User.mkUser "A" 1).UserChats = ∅ ∧
    (User.mkUser "A" 1).execute
        [Op.newUser ⟨"B", 2⟩ 0, Op.newUser ⟨"C", 3⟩ 1, Op.newChat ⟨1, 1, 0, 0, 7⟩,
         Op.newChatEvent ⟨"A_C", ["A", "C"]⟩, Op.newChatEvent ⟨"B_C", ["B", "C"]⟩,
         Op.newMessage ⟨0, 0, 0, 0, 8⟩, Op.chatClose "nowhere"] =
      .ok { ID := "A", addr := 1,
            OtherUsers := (AList.insert "C" ⟨"C", 3⟩ (AList.insert "B" ⟨"B", 2⟩ ∅)),
            UserChats := (AList.insert "A_C" ⟨"A_C", ["A", "C"]⟩
              (AList.insert "A_B_C" ⟨"A_B_C", ["A", "B", "C"]⟩ ∅)) } ∧
    ∀ chatID room,
      (AList.insert "A_C" (ChatRoom.mk "A_C" ["A", "C"])
        (AList.insert "A_B_C" (ChatRoom.mk "A_B_C" ["A", "B", "C"]) (∅ : GoMap ChatRoom))).lookup chatID = some room →
      "A" ∈ room.UserIDs :=
  ⟨rfl, rfl,
   (C1_membership_invariant (User.mkUser "A" 1) _
      [Op.newUser ⟨"B", 2⟩ 0, Op.newUser ⟨"C", 3⟩ 1, Op.newChat ⟨1, 1, 0, 0, 7⟩,
       Op.newChatEvent ⟨"A_C", ["A", "C"]⟩, Op.newChatEvent ⟨"B_C", ["B", "C"]⟩,
       Op.newMessage ⟨0, 0, 0, 0, 8⟩, Op.chatClose "nowhere"] rfl rfl).2⟩


theorem chatroomIDOf_congr {c1 c2 : String} {ms1 ms2 : List String}
    (h : (ms1 ++ [c1]).Perm (ms2 ++ [c2])) : chatroomIDOf c1 ms1 = chatroomIDOf c2 ms2 := by
  unfold chatroomIDOf
  rw [sortStrings_congr h]

theorem NewChat_event_room (u : User) (r : Rand) (res : Result) (event : ChatEvent)
    (h : u.NewChat r = .ok res) (he : res.ret = .ok event) :
    ∃ chosen, u.chooseMembers r = .ok chosen ∧ event.ChatRoom = u.roomFor chosen ∧
      res.user.UserChats.lookup (chatroomIDOf u.ID chosen) = some (u.roomFor chosen) := by
  obtain ⟨chosen, hch, h1 | h1⟩ := NewChat_ok u r res h
  · rw [h1.2.2.2] at he
    cases he
  · refine ⟨chosen, hch, ?_, ?_⟩
    · rw [h1.2.2.2] at he
      simp only [Except.ok.injEq] at he
      rw [← he]
      rfl
    · rw [h1.2.1]
      exact AList.lookup_insert _

/-- C2: room id derivation is permutation-invariant.  For every creator id and every
two lists of chosen member ids that are permutations of each other, the id computed
by `NewChat` (append the creator id, `sort.Strings`, join with `"_"`) is the same
string; the same holds when the two member lists, creator included, are permutations
of each other; the members `[user_3, user_1]` and `[user_1, user_3]` both yield
`"user_1_user_3"`; and the id of the room in an event returned by `NewChat` is the id
so computed from the creator and the chosen peers. -/
theorem C2_room_id_permutation_invariant :
    (∀ (creator : String) (ms1 ms2 : List String), ms1.Perm ms2 →
      chatroomIDOf creator ms1 = chatroomIDOf creator ms2) ∧
    (∀ (u : User) (r : Rand) (res : Result) (event : ChatEvent),
      u.NewChat r = .ok res → res.ret = .ok event →
      ∃ chosen, u.chooseMembers r = .ok chosen ∧
        event.ChatRoom.ID = chatroomIDOf u.ID chosen) ∧
    (∀ (c1 c2 : String) (ms1 ms2 : List String), (ms1 ++ [c1]).Perm (ms2 ++ [c2]) →
      chatroomIDOf c1 ms1 = chatroomIDOf c2 ms2) ∧
    chatroomIDOf "user_1" ["user_3"] = "user_1_user_3" ∧
    chatroomIDOf "user_3" ["user_1"] = "user_1_user_3" ∧
    stringsJoin (sortStrings ["user_3", "user_1"]) "_" = "user_1_user_3" ∧
    stringsJoin (sortStrings ["user_1", "user_3"]) "_" = "user_1_user_3" :=
  ⟨fun _ _ _ h => chatroomIDOf_congr (h.append_right _),
   fun u r res event h he => by
     obtain ⟨chosen, hch, hroom, _⟩ := NewChat_event_room u r res event h he
     exact ⟨chosen, hch, by rw [hroom]; rfl⟩,
   fun _ _ _ _ h => chatroomIDOf_congr h, rfl, rfl, rfl, rfl⟩

/-- Witness of C2: creator `user_1` choosing `user_3, user_2` or `user_2, user_3`. -/
theorem C2_room_id_permutation_invariant_witness :
    ["user_3", "user_2"].Perm ["user_2", "user_3"] ∧
    chatroomIDOf "user_1" ["user_3", "user_2"] = chatroomIDOf "user_1" ["user_2", "user_3"] ∧
    chatroomIDOf "user_1" ["user_3", "user_2"] = "user_1_user_2_user_3" :=
  ⟨List.Perm.swap "user_2" "user_3" [],
   C2_room_id_permutation_invariant.1 "user_1" ["user_3", "user_2"] ["user_2", "user_3"]
     (List.Perm.swap "user_2" "user_3" []), rfl⟩


theorem chatroomIDOf_eq_deriveID (creator : String) (chosen : List String) :
    chatroomIDOf creator chosen = deriveID (chosen ++ [creator]) := rfl

theorem plainID_spec {pre id : String} (h : plainID pre id = true) :
    ∃ d : List Char, id.data = pre.data ++ d ∧ '_' ∉ d := by
  unfold plainID at h
  simp only [Bool.and_eq_true, Bool.not_eq_true', List.isPrefixOf_iff_prefix] at h
  obtain ⟨hpre, hno⟩ := h
  obtain ⟨d, hd⟩ := hpre
  refine ⟨d, hd.symm, ?_⟩
  rw [← hd] at hno
  simpa using hno

theorem stringsJoin_data (x : String) (xs : List String) :
    (stringsJoin (x :: xs) "_").data = x.data ++ joinTail xs := by
  cases xs with
  | nil => simp [stringsJoin, joinTail]
  | cons y ys =>
    simp only [stringsJoin, joinTail, String.data_append]
    simp

theorem joinTail_shape (xs : List String) : joinTail xs = [] ∨ ∃ t, joinTail xs = '_' :: t := by
  cases xs with
  | nil => exact Or.inl rfl
  | cons y ys => exact Or.inr ⟨_, rfl⟩

theorem split_at_separator : ∀ (d1 d2 t1 t2 : List Char), '_' ∉ d1 → '_' ∉ d2 →
    (t1 = [] ∨ ∃ t, t1 = '_' :: t) → (t2 = [] ∨ ∃ t, t2 = '_' :: t) →
    d1 ++ t1 = d2 ++ t2 → d1 = d2 ∧ t1 = t2
  | [], [], _, _, _, _, _, _, h => ⟨rfl, by simpa using h⟩
  | [], c :: d2, t1, t2, _, h2, ht1, _, h => by
    rcases ht1 with ht1 | ⟨t, ht1⟩
    · subst ht1; simp at h
    · subst ht1
      simp only [List.nil_append, List.cons_append, List.cons.injEq] at h
      exact absurd (h.1 ▸ List.mem_cons_self _ _) h2
  | c :: d1, [], t1, t2, h1, _, _, ht2, h => by
    rcases ht2 with ht2 | ⟨t, ht2⟩
    · subst ht2; simp at h
    · subst ht2
      simp only [List.nil_append, List.cons_append, List.cons.injEq] at h
      exact absurd (h.1 ▸ List.mem_cons_self _ _) h1
  | c1 :: d1, c2 :: d2, t1, t2, h1, h2, ht1, ht2, h => by
    simp only [List.cons_append, List.cons.injEq] at h
    have h1' : '_' ∉ d1 := fun hm => h1 (List.mem_cons_of_mem _ hm)
    have h2' : '_' ∉ d2 := fun hm => h2 (List.mem_cons_of_mem _ hm)
    obtain ⟨hd, ht⟩ := split_at_separator d1 d2 t1 t2 h1' h2' ht1 ht2 h.2
    exact ⟨by rw [h.1, hd], ht⟩

theorem stringsJoin_injective (pre : String) : ∀ (xs ys : List String) (x y : String),
    (∀ z ∈ x :: xs, plainID pre z = true) → (∀ z ∈ y :: ys, plainID pre z = true) →
    stringsJoin (x :: xs) "_" = stringsJoin (y :: ys) "_" → x :: xs = y :: ys := by
  intro xs
  induction xs with
  | nil =>
    intro ys x y hx hy h
    have hdata := congrArg String.data h
    rw [stringsJoin_data, stringsJoin_data] at hdata
    obtain ⟨dx, hdx, hnx⟩ := plainID_spec (hx x (List.mem_cons_self _ _))
    obtain ⟨dy, hdy, hny⟩ := plainID_spec (hy y (List.mem_cons_self _ _))
    rw [hdx, hdy, List.append_assoc, List.append_assoc] at hdata
    have hcut := List.append_cancel_left hdata
    obtain ⟨hd, ht⟩ := split_at_separator dx dy _ _ hnx hny (joinTail_shape [])
      (joinTail_shape ys) hcut
    have hxy : x = y := String.ext (by rw [hdx, hdy, hd])
    cases ys with
    | nil => rw [hxy]
    | cons y1 ys1 => simp [joinTail] at ht
  | cons x1 xs1 ih =>
    intro ys x y hx hy h
    have hdata := congrArg String.data h
    rw [stringsJoin_data, stringsJoin_data] at hdata
    obtain ⟨dx, hdx, hnx⟩ := plainID_spec (hx x (List.mem_cons_self _ _))
    obtain ⟨dy, hdy, hny⟩ := plainID_spec (hy y (List.mem_cons_self _ _))
    rw [hdx, hdy, List.append_assoc, List.append_assoc] at hdata
    have hcut := List.append_cancel_left hdata
    obtain ⟨hd, ht⟩ := split_at_separator dx dy _ _ hnx hny (joinTail_shape (x1 :: xs1))
      (joinTail_shape ys) hcut
    have hxy : x = y := String.ext (by rw [hdx, hdy, hd])
    cases ys with
    | nil => simp [joinTail] at ht
    | cons y1 ys1 =>
      simp only [joinTail, List.cons.injEq, true_and] at ht
      have hrest := ih ys1 x1 y1 (fun z hz => hx z (List.mem_cons_of_mem _ hz))
        (fun z hz => hy z (List.mem_cons_of_mem _ hz)) (String.ext ht)
      rw [hxy, hrest]

theorem deriveID_injective (pre : String) (xs ys : List String) (hx : xs ≠ []) (hy : ys ≠ [])
    (hpx : ∀ x ∈ xs, plainID pre x = true) (hpy : ∀ y ∈ ys, plainID pre y = true)
    (h : deriveID xs = deriveID ys) : xs.Perm ys := by
  unfold deriveID at h
  have hsx : sortStrings xs ≠ [] := fun he =>
    hx (List.length_eq_zero.1 (by rw [← (sortStrings_perm xs).length_eq, he]; rfl))
  have hsy : sortStrings ys ≠ [] := fun he =>
    hy (List.length_eq_zero.1 (by rw [← (sortStrings_perm ys).length_eq, he]; rfl))
  obtain ⟨a, as, ha⟩ := List.exists_cons_of_ne_nil hsx
  obtain ⟨b, bs, hb⟩ := List.exists_cons_of_ne_nil hsy
  have hpa : ∀ z ∈ a :: as, plainID pre z = true := fun z hz =>
    hpx z (mem_sortStrings.1 (ha ▸ hz))
  have hpb : ∀ z ∈ b :: bs, plainID pre z = true := fun z hz =>
    hpy z (mem_sortStrings.1 (hb ▸ hz))
  rw [ha, hb] at h
  have heq := stringsJoin_injective pre as bs a b hpa hpb h
  rw [← ha, ← hb] at heq
  exact ((sortStrings_perm xs).symm.trans (heq ▸ List.Perm.refl _)).trans (sortStrings_perm ys)

/-- C3 as stated fails: the one-member list `["a_b"]` and the two-member list
`["a", "b"]` have no duplicates and different members, yet derive the same id. -/
theorem C3_room_id_collision :
    ["a_b"].Nodup ∧ ["a", "b"].Nodup ∧
    deriveID ["a_b"] = deriveID ["a", "b"] ∧
    ¬ (∀ x : String, x ∈ ["a_b"] ↔ x ∈ ["a", "b"]) :=
  ⟨by decide, by decide, rfl, fun h => absurd ((h "a_b").1 (List.mem_cons_self _ _)) (by decide)⟩

/-- C3, amended: for every two non-empty lists of member ids without duplicates
whose ids all consist of one common prefix followed by underscore-free text (the ids
`user_<n>` of `main` with prefix `user_`, or underscore-free ids with the empty
prefix), the ids derived by sorting and joining with `"_"` are equal if and only if
the two lists contain the same set of members. -/
theorem C3_room_id_identifies_members (pre : String) (xs ys : List String)
    (hx : xs ≠ []) (hy : ys ≠ []) (hdx : xs.Nodup) (hdy : ys.Nodup)
    (hpx : ∀ x ∈ xs, plainID pre x = true) (hpy : ∀ y ∈ ys, plainID pre y = true) :
    deriveID xs = deriveID ys ↔ ∀ x, x ∈ xs ↔ x ∈ ys := by
  constructor
  · intro h x
    exact (deriveID_injective pre xs ys hx hy hpx hpy h).mem_iff
  · intro h
    unfold deriveID
    rw [sortStrings_congr ((List.perm_ext_iff_of_nodup hdx hdy).2 h)]

/-- Witness of the amended C3 on ids of the form `user_<n>`. -/
theorem C3_room_id_identifies_members_witness :
    (deriveID ["user_2", "user_10"] = deriveID ["user_10", "user_2"] ↔
      ∀ x, x ∈ ["user_2", "user_10"] ↔ x ∈ ["user_10", "user_2"]) ∧
    deriveID ["user_2", "user_10"] = "user_10_user_2" :=
  ⟨C3_room_id_identifies_members "user_" ["user_2", "user_10"] ["user_10", "user_2"]
    (by decide) (by decide) (by decide) (by decide) (by decide) (by decide), rfl⟩


theorem NewChat_of_duplicate (u : User) (r : Rand) (chosen : List String)
    (hch : u.chooseMembers r = .ok chosen)
    (hdup : (u.UserChats.lookup (chatroomIDOf u.ID chosen)).isSome = true) :
    u.NewChat r =
      .ok (Result.mk u [] (.error ("Duplicated chat ID: " ++ chatroomIDOf u.ID chosen))) := by
  unfold chatroomIDOf at hdup
  unfold User.NewChat
  simp only [hch, hdup, if_true, chatroomIDOf]

/-- C4: create-chat duplicate failure is atomic.  For every user with non-empty
`OtherUsers` and every random outcome the member selection goes through, and if
`UserChats` already holds the id derived from the chosen members, `NewChat` returns
the error `Duplicated chat ID: <id>`, sends no event to any peer, and leaves the user
(`UserChats` and `OtherUsers` included) unchanged. -/
theorem C4_duplicate_chat_is_atomic (u : User) (r : Rand) (hne : u.OtherUsers.len ≠ 0) :
    ∃ chosen, u.chooseMembers r = .ok chosen ∧
      ((u.UserChats.lookup (chatroomIDOf u.ID chosen)).isSome = true →
        ∃ res, u.NewChat r = .ok res ∧
          res.ret = .error ("Duplicated chat ID: " ++ chatroomIDOf u.ID chosen) ∧
          res.sent = [] ∧ res.user = u ∧
          res.user.UserChats = u.UserChats ∧ res.user.OtherUsers = u.OtherUsers) := by
  obtain ⟨chosen, hch, _⟩ := chooseMembers_ok u r hne
  exact ⟨chosen, hch, fun hdup =>
    ⟨_, NewChat_of_duplicate u r chosen hch hdup, rfl, rfl, rfl, rfl, rfl⟩⟩

/-- Witness of C4: `A` knows only `B` and already holds `A_B`; the next `NewChat` can
only derive `A_B` again and is refused. -/
theorem C4_duplicate_chat_is_atomic_witness :
    userWithRoom.OtherUsers.len ≠ 0 ∧
    (userWithRoom.UserChats.lookup "A_B").isSome = true ∧
    ∃ res, userWithRoom.NewChat ⟨5, 3, 2, 1, 9⟩ = .ok res ∧
      res.ret = .error "Duplicated chat ID: A_B" ∧ res.sent = [] ∧ res.user = userWithRoom := by
  refine ⟨by decide, by decide, ?_⟩
  obtain ⟨chosen, hch, himp⟩ := C4_duplicate_chat_is_atomic userWithRoom ⟨5, 3, 2, 1, 9⟩ (by decide)
  have hc : userWithRoom.chooseMembers ⟨5, 3, 2, 1, 9⟩ = .ok ["B"] := rfl
  rw [hc] at hch
  cases hch
  obtain ⟨res, h1, h2, h3, h4, _⟩ := himp (by decide)
  exact ⟨res, h1, h2, h3, h4⟩


theorem NewMessage_of_empty (u : User) (r : Rand) (h : u.UserChats.len = 0) :
    u.NewMessage r = .ok { user := u, sent := [], ret := .error "No chats available" } := by
  unfold User.NewMessage
  rw [getRandomChat_of_empty u r h]

theorem CloseChat_of_empty (u : User) (r : Rand) (h : u.UserChats.len = 0) :
    u.CloseChat r = .ok { user := u, sent := [], ret := .error "No chats available" } := by
  unfold User.CloseChat
  rw [getRandomChat_of_empty u r h]

/-- C5: with empty `UserChats`, both `NewMessage` and `CloseChat` return the error
`No chats available`, produce no outbound events and leave the user (`UserChats` and
`OtherUsers` included) unchanged; conversely, whenever `UserChats` is non-empty,
`getRandomChat` returns a room stored in `UserChats` and no error. -/
theorem C5_no_chats_available (u : User) (r : Rand) :
    (u.UserChats = ∅ →
      u.NewMessage r = .ok { user := u, sent := [], ret := .error "No chats available" } ∧
      u.CloseChat r = .ok { user := u, sent := [], ret := .error "No chats available" }) ∧
    (u.UserChats ≠ ∅ →
      ∃ chatID room, u.UserChats.lookup chatID = some room ∧
        u.getRandomChat r = .ok (.ok room)) := by
  constructor
  · intro h
    have hlen : u.UserChats.len = 0 := (eq_empty_iff_len _).1 h
    exact ⟨NewMessage_of_empty u r hlen, CloseChat_of_empty u r hlen⟩
  · intro h
    have hlen : u.UserChats.len ≠ 0 := fun h0 => h ((eq_empty_iff_len _).2 h0)
    obtain ⟨chatID, room, _, hlook, _, hget⟩ := getRandomChat_of_nonempty u r hlen
    exact ⟨chatID, room, hlook, hget⟩

/-- Witness of C5: a fresh user has no chats; the user holding `A_B` gets a room. -/
theorem C5_no_chats_available_witness :
    ((User.mkUser "A" 1).UserChats = ∅ ∧
      (User.mkUser "A" 1).NewMessage ⟨0, 0, 0, 0, 0⟩ =
        .ok { user := User.mkUser "A" 1, sent := [], ret := .error "No chats available" } ∧
      (User.mkUser "A" 1).CloseChat ⟨0, 0, 0, 0, 0⟩ =
        .ok { user := User.mkUser "A" 1, sent := [], ret := .error "No chats available" }) ∧
    (userWithRoom.UserChats ≠ ∅ ∧
      ∃ chatID room, userWithRoom.UserChats.lookup chatID = some room ∧
        userWithRoom.getRandomChat ⟨4, 0, 7, 0, 0⟩ = .ok (.ok room)) :=
  ⟨⟨rfl, (C5_no_chats_available (User.mkUser "A" 1) ⟨0, 0, 0, 0, 0⟩).1 rfl⟩,
   ⟨fun h => absurd (congrArg GoMap.len h) (by decide),
    (C5_no_chats_available userWithRoom ⟨4, 0, 7, 0, 0⟩).2
      (fun h => absurd (congrArg GoMap.len h) (by decide))⟩⟩


/-- C6: CLOSE handling.  For every user and every room id `X`, whether or not `X` was
in `UserChats` and whether or not the user is a member, after `handleChatClose(X)`
the id `X` is absent from `UserChats`, every other entry of `UserChats` is unchanged,
`OtherUsers` (and the user's id) is unchanged, and applying `handleChatClose(X)` a
second time changes nothing. -/
theorem C6_close_handling (u : User) (X : String) :
    (u.handleChatClose X).UserChats.lookup X = none ∧
    X ∉ (u.handleChatClose X).UserChats.keys ∧
    (∀ k, k ≠ X → (u.handleChatClose X).UserChats.lookup k = u.UserChats.lookup k) ∧
    (u.handleChatClose X).OtherUsers = u.OtherUsers ∧
    (u.handleChatClose X).ID = u.ID ∧
    (u.handleChatClose X).handleChatClose X = u.handleChatClose X := by
  refine ⟨AList.lookup_erase X _, ?_, fun k hk => AList.lookup_erase_ne hk, rfl, rfl, ?_⟩
  · intro hmem
    have := (AList.mem_erase (s := u.UserChats)).1 (AList.mem_keys.2 hmem)
    exact this.1 rfl
  · unfold User.handleChatClose
    simp only [erase_idem]

/-- Witness of C6: closing `A_B` at the user holding it keeps other lookups. -/
theorem C6_close_handling_witness :
    "A_C" ≠ "A_B" ∧
    (userWithRoom.handleChatClose "A_B").UserChats.lookup "A_C" =
      userWithRoom.UserChats.lookup "A_C" ∧
    (userWithRoom.handleChatClose "A_B").UserChats = ∅ :=
  ⟨by decide, (C6_close_handling userWithRoom "A_B").2.2.1 "A_C" (by decide), rfl⟩


/-- C7: NEW handling.  For every user `u` and every room `r`, `handleNewChat(r)`
returns true if and only if `u.ID` occurs in `r.UserIDs`; when it returns true,
`UserChats` afterwards maps `r.ID` to `r` and all other entries are unchanged; when it
returns false, the user (`UserChats` included) is unchanged.  `OtherUsers` and the id
are unchanged either way. -/
theorem C7_new_handling (u : User) (r : ChatRoom) :
    ((u.handleNewChat r).2 = true ↔ u.ID ∈ r.UserIDs) ∧
    ((u.handleNewChat r).2 = true →
      (u.handleNewChat r).1.UserChats.lookup r.ID = some r ∧
      ∀ k, k ≠ r.ID → (u.handleNewChat r).1.UserChats.lookup k = u.UserChats.lookup k) ∧
    ((u.handleNewChat r).2 = false → (u.handleNewChat r).1 = u) ∧
    (u.handleNewChat r).1.OtherUsers = u.OtherUsers ∧
    (u.handleNewChat r).1.ID = u.ID := by
  have hb := handleNewChat_snd u r
  by_cases hm : u.ID ∈ r.UserIDs
  · have h1 := handleNewChat_fst_of_mem u r hm
    refine ⟨by simp [hb, hm], fun _ => ?_, fun hf => ?_, by rw [h1], by rw [h1]⟩
    · rw [h1]
      exact ⟨AList.lookup_insert _, fun k hk => AList.lookup_insert_ne hk⟩
    · rw [hb] at hf
      simp [hm] at hf
  · have h1 := handleNewChat_fst_of_not_mem u r hm
    refine ⟨by simp [hb, hm], fun ht => ?_, fun _ => h1, by rw [h1], by rw [h1]⟩
    rw [hb] at ht
    simp [hm] at ht

/-- Witness of C7: `A` joins a room that lists it and ignores one that does not. -/
theorem C7_new_handling_witness :
    (((User.mkUser "A" 1).handleNewChat ⟨"A_B", ["A", "B"]⟩).2 = true ∧
      ((User.mkUser "A" 1).handleNewChat ⟨"A_B", ["A", "B"]⟩).1.UserChats.lookup "A_B" =
        some ⟨"A_B", ["A", "B"]⟩) ∧
    (((User.mkUser "A" 1).handleNewChat ⟨"B_C", ["B", "C"]⟩).2 = false ∧
      ((User.mkUser "A" 1).handleNewChat ⟨"B_C", ["B", "C"]⟩).1 = User.mkUser "A" 1) :=
  ⟨⟨rfl, ((C7_new_handling (User.mkUser "A" 1) ⟨"A_B", ["A", "B"]⟩).2.1 rfl).1⟩,
   ⟨rfl, (C7_new_handling (User.mkUser "A" 1) ⟨"B_C", ["B", "C"]⟩).2.2.1 rfl⟩⟩


theorem sendToMembers_ok (u : User) (event : ChatEvent) : ∀ (userIDs : List String),
    (∀ id ∈ userIDs, id ≠ u.ID → id ∈ u.OtherUsers.keys) →
    u.sendToMembers event userIDs = .ok (u.memberSends event userIDs) ∧
      (u.memberSends event userIDs).length = (userIDs.filter (fun id => id ≠ u.ID)).length := by
  intro userIDs
  induction userIDs with
  | nil => intro _; exact ⟨rfl, rfl⟩
  | cons x xs ih =>
    intro h
    obtain ⟨h1, h2⟩ := ih (fun id hid => h id (List.mem_cons_of_mem _ hid))
    by_cases hx : x = u.ID
    · constructor
      · simp only [User.sendToMembers, ne_eq, hx, not_true_eq_false, if_false, h1]
        simp [User.memberSends]
      · simpa [User.memberSends, hx] using h2
    · have hmem : x ∈ u.OtherUsers.keys := h x (List.mem_cons_self _ _) hx
      obtain ⟨p, hp⟩ := Option.isSome_iff_exists.1 (AList.lookup_isSome.2 (AList.mem_keys.2 hmem))
      constructor
      · simp only [User.sendToMembers, ne_eq, hx, not_false_eq_true, if_true, User.sendVia,
          hp, h1]
        simp [User.memberSends, hx, hp]
      · simpa [User.memberSends, hx, hp] using h2

theorem sendToMembers_miss (u : User) (event : ChatEvent) : ∀ (userIDs : List String),
    (∃ id ∈ userIDs, id ≠ u.ID ∧ id ∉ u.OtherUsers.keys) →
    u.sendToMembers event userIDs = .error .nilDereference := by
  intro userIDs
  induction userIDs with
  | nil => intro ⟨id, hid, _⟩; exact absurd hid (List.not_mem_nil _)
  | cons x xs ih =>
    intro ⟨id, hid, hne, hmiss⟩
    by_cases hx : x = u.ID
    · have hid1 : id ∈ xs := by
        rcases List.mem_cons.1 hid with h | h
        · exact absurd (h.trans hx) hne
        · exact h
      simp only [User.sendToMembers, ne_eq, hx, not_true_eq_false, if_false]
      exact ih ⟨id, hid1, hne, hmiss⟩
    · simp only [User.sendToMembers, ne_eq, hx, not_false_eq_true, if_true, User.sendVia]
      cases hlook : u.OtherUsers.lookup x with
      | none => rfl
      | some p =>
        have hid1 : id ∈ xs := by
          rcases List.mem_cons.1 hid with h | h
          · subst h
            have : (u.OtherUsers.lookup id).isSome = true := by rw [hlook]; rfl
            exact absurd (AList.mem_keys.1 (AList.lookup_isSome.1 this)) hmiss
          · exact h
        simp only [ih ⟨id, hid1, hne, hmiss⟩]

/-- C8 as stated fails: user `A` knows only `B` and holds the room `A_B_Z` it was told
of; the member `Z` is not its own id and not a key of `OtherUsers`, and `NewMessage`
does not skip `Z` but ends in the nil dereference of the send to `Z`. -/
theorem C8_peer_lookup_miss_is_fatal :
    userWithStranger.getRandomChat ⟨0, 0, 0, 0, 5⟩ = .ok (.ok ⟨"A_B_Z", ["A", "B", "Z"]⟩) ∧
    "Z" ∈ ["A", "B", "Z"] ∧ "Z" ≠ userWithStranger.ID ∧
    "Z" ∉ userWithStranger.OtherUsers.keys ∧
    userWithStranger.NewMessage ⟨0, 0, 0, 0, 5⟩ = .error .nilDereference :=
  ⟨rfl, by decide, by decide, by decide, rfl⟩

/-- C8, amended: a peer-lookup miss during message fan-out is not skipped.  For every
user state and random outcome in which `NewMessage` selects the room `room`: if every
member id of `room` other than the sender's own id is a key of `OtherUsers`,
`NewMessage` does not abort, issues one send of the MESSAGE event per such member id,
to the peer stored under that id, leaves the user unchanged and returns the event
without error; if some member id other than the sender's own is not a key of
`OtherUsers`, the send to it goes through a nil `*User` and `NewMessage` ends in that
panic. -/
theorem C8_message_fan_out_lookup (u : User) (r : Rand) (room : ChatRoom)
    (hsel : u.getRandomChat r = .ok (.ok room)) :
    ((∀ id ∈ room.UserIDs, id ≠ u.ID → id ∈ u.OtherUsers.keys) →
      u.NewMessage r = .ok (Result.mk u
        (u.memberSends (u.messageEventFor room r.now) room.UserIDs)
        (.ok (u.messageEventFor room r.now))) ∧
      (u.memberSends (u.messageEventFor room r.now) room.UserIDs).length =
        (room.UserIDs.filter (fun id => id ≠ u.ID)).length) ∧
    ((∃ id ∈ room.UserIDs, id ≠ u.ID ∧ id ∉ u.OtherUsers.keys) →
      u.NewMessage r = .error .nilDereference) := by
  constructor
  · intro h
    obtain ⟨h1, h2⟩ := sendToMembers_ok u (u.messageEventFor room r.now) room.UserIDs h
    refine ⟨?_, h2⟩
    unfold User.NewMessage
    simp only [hsel]
    unfold User.messageEventFor at h1
    rw [h1]
    rfl
  · intro h
    have h1 := sendToMembers_miss u (u.messageEventFor room r.now) room.UserIDs h
    unfold User.NewMessage
    simp only [hsel]
    unfold User.messageEventFor at h1
    rw [h1]

/-- Witness of the amended C8: `A` holds `A_B` and knows `B`, and the message goes to
`B` alone; `A` holding `A_B_Z` without knowing `Z` ends in the panic. -/
theorem C8_message_fan_out_lookup_witness :
    userWithRoom.getRandomChat ⟨0, 0, 0, 0, 3661⟩ = .ok (.ok ⟨"A_B", ["A", "B"]⟩) ∧
    (∀ id ∈ ["A", "B"], id ≠ userWithRoom.ID → id ∈ userWithRoom.OtherUsers.keys) ∧
    userWithRoom.NewMessage ⟨0, 0, 0, 0, 3661⟩ = .ok (Result.mk userWithRoom
      [Send.mk ⟨"B", 2⟩ ⟨⟨"A", 1⟩, ⟨"A_B", ["A", "B"]⟩, "Hello from A at 01:01:01", 1, 3661⟩]
      (.ok ⟨⟨"A", 1⟩, ⟨"A_B", ["A", "B"]⟩, "Hello from A at 01:01:01", 1, 3661⟩)) ∧
    userWithStranger.getRandomChat ⟨0, 0, 0, 0, 5⟩ = .ok (.ok ⟨"A_B_Z", ["A", "B", "Z"]⟩) ∧
    (∃ id ∈ ["A", "B", "Z"], id ≠ userWithStranger.ID ∧ id ∉ userWithStranger.OtherUsers.keys) ∧
    userWithStranger.NewMessage ⟨0, 0, 0, 0, 5⟩ = .error .nilDereference :=
  ⟨rfl, by decide,
   ((C8_message_fan_out_lookup userWithRoom ⟨0, 0, 0, 0, 3661⟩ ⟨"A_B", ["A", "B"]⟩ rfl).1
      (by decide)).1,
   rfl, ⟨"Z", by decide, by decide, by decide⟩,
   (C8_message_fan_out_lookup userWithStranger ⟨0, 0, 0, 0, 5⟩ ⟨"A_B_Z", ["A", "B", "Z"]⟩ rfl).2
      ⟨"Z", by decide, by decide, by decide⟩⟩


theorem NewChat_of_empty (u : User) (r : Rand) (h : u.OtherUsers.len = 0) :
    u.NewChat r = .error .intnNonPositive := by
  unfold User.NewChat
  rw [chooseMembers_of_empty u r h]

/-- C9, the code at the failing input: the user `user_1` as `main` constructs and
starts it, before any presence notification, has empty `OtherUsers`, and for every
random outcome its `NewChat` ends in the panic of `rand.Intn(0)` instead of returning
an event or an error. -/
theorem C9_new_chat_panics_without_peers :
    (User.mkUser "user_1" 1).OtherUsers = ∅ ∧
    ∀ r : Rand, (User.mkUser "user_1" 1).NewChat r = .error .intnNonPositive :=
  ⟨rfl, fun r => NewChat_of_empty _ r rfl⟩


theorem NewChat_total (u : User) (r : Rand) (chosen : List String)
    (hch : u.chooseMembers r = .ok chosen) :
    ∃ res, u.NewChat r = .ok res ∧
      ∀ event, res.ret = .ok event → event.ChatRoom = u.roomFor chosen ∧
        res.user.UserChats.lookup (u.roomFor chosen).ID = some (u.roomFor chosen) := by
  cases hdup : (u.UserChats.lookup (chatroomIDOf u.ID chosen)).isSome with
  | true =>
    refine ⟨_, NewChat_of_duplicate u r chosen hch hdup, ?_⟩
    intro event he
    cases he
  | false =>
    have hnew : u.NewChat r = .ok (Result.mk
        { u with UserChats := u.UserChats.insert (chatroomIDOf u.ID chosen) (u.roomFor chosen) }
        ((u.OtherUsers.rangeValues r.fanout).map
          (fun user => Send.mk user (u.newChatEventFor chosen r.now)))
        (.ok (u.newChatEventFor chosen r.now))) := by
      unfold chatroomIDOf at hdup
      unfold User.NewChat
      simp only [hch, hdup]
      rfl
    refine ⟨_, hnew, ?_⟩
    intro event he
    simp only [Except.ok.injEq] at he
    subst he
    exact ⟨rfl, AList.lookup_insert _⟩

/-- C10: create-chat member selection.  For every user `u` with non-empty `OtherUsers`
that does not contain `u.ID`, and for every outcome of the random draws, every index
of the permutation is in range of `otherUserIDs`, the selection yields `size - 1`
pairwise-distinct ids that are all keys of `OtherUsers`, where the total size is
between 2 and `len(OtherUsers) + 1` inclusive; the member list of the room built from
them has that size, has no duplicates and consists of `u.ID` plus the chosen ids; and
`NewChat` returns, the room of a returned event being that room. -/
theorem C10_member_selection (u : User) (r : Rand)
    (hne : u.OtherUsers ≠ ∅) (hself : u.ID ∉ u.OtherUsers.keys) :
    ∃ size chosen, size = r.intn % u.OtherUsers.len + 2 ∧
      2 ≤ size ∧ size ≤ u.OtherUsers.len + 1 ∧
      (∀ v ∈ randPerm r.perm (size - 1), v < (u.otherUserIDs r.keys).length) ∧
      u.chooseMembers r = .ok chosen ∧
      chosen.length = size - 1 ∧ chosen.Nodup ∧
      (∀ id ∈ chosen, id ∈ u.OtherUsers.keys) ∧
      (u.roomFor chosen).UserIDs.length = size ∧
      (u.roomFor chosen).UserIDs.Nodup ∧
      (u.roomFor chosen).UserIDs.Perm (u.ID :: chosen) ∧
      ∃ res, u.NewChat r = .ok res ∧
        ∀ event, res.ret = .ok event → event.ChatRoom = u.roomFor chosen ∧
          res.user.UserChats.lookup (u.roomFor chosen).ID = some (u.roomFor chosen) := by
  have hlen : u.OtherUsers.len ≠ 0 := fun h0 => hne ((eq_empty_iff_len _).2 h0)
  have hn : r.intn % u.OtherUsers.len < u.OtherUsers.len :=
    Nat.mod_lt _ (Nat.pos_of_ne_zero hlen)
  obtain ⟨chosen, hch, hlength, hnodup, hkeys⟩ := chooseMembers_ok u r hlen
  have hperm : (u.roomFor chosen).UserIDs.Perm (u.ID :: chosen) := by
    unfold User.roomFor
    exact (sortStrings_perm _).trans (List.perm_append_singleton u.ID chosen)
  have hnd : (u.ID :: chosen).Nodup :=
    List.nodup_cons.2 ⟨fun hmem => hself (hkeys _ hmem), hnodup⟩
  refine ⟨r.intn % u.OtherUsers.len + 2, chosen, rfl, by omega, by omega, ?_, hch,
    by omega, hnodup, hkeys, ?_, hperm.nodup_iff.2 hnd, hperm, NewChat_total u r chosen hch⟩
  · intro v hv
    have := List.mem_range.1 ((randPerm_perm _ _).mem_iff.1 hv)
    unfold User.otherUserIDs
    rw [length_rangeKeys]
    omega
  · rw [hperm.length_eq, List.length_cons, hlength]

/-- Witness of C10: `A` knows `B`, `C`, `D`; the draws pick size 3 and two peers. -/
theorem C10_member_selection_witness :
    userWithPeers.OtherUsers ≠ ∅ ∧ userWithPeers.ID ∉ userWithPeers.OtherUsers.keys ∧
    userWithPeers.chooseMembers ⟨4, 1, 3, 0, 0⟩ = .ok ["B", "D"] ∧
    (userWithPeers.roomFor ["B", "D"]).UserIDs = ["A", "B", "D"] ∧
    ∃ size chosen, size = 4 % userWithPeers.OtherUsers.len + 2 ∧ 2 ≤ size ∧
      size ≤ userWithPeers.OtherUsers.len + 1 ∧
      userWithPeers.chooseMembers ⟨4, 1, 3, 0, 0⟩ = .ok chosen ∧ chosen.length = size - 1 := by
  have hne : userWithPeers.OtherUsers ≠ ∅ := fun h => absurd (congrArg GoMap.len h) (by decide)
  obtain ⟨size, chosen, h1, h2, h3, _, h5, h6, _⟩ :=
    C10_member_selection userWithPeers ⟨4, 1, 3, 0, 0⟩ hne (by decide)
  exact ⟨hne, by decide, rfl, rfl, size, chosen, h1, h2, h3, h5, h6⟩

/-! ## Facts about fan-out and the further invariants -/

theorem filterMap_dlookup_keys {V : Type} : ∀ (l : List (Sigma (fun _ : String => V))),
    l.NodupKeys → l.keys.filterMap (fun k => List.dlookup k l) = l.map (fun e => e.2)
  | [], _ => rfl
  | ⟨k, v⟩ :: l, h => by
    have hk : k ∉ l.keys := (List.nodupKeys_cons.1 h).1
    have hl : l.NodupKeys := (List.nodupKeys_cons.1 h).2
    have ih := filterMap_dlookup_keys l hl
    simp only [List.keys_cons, List.filterMap_cons, List.dlookup_cons_eq, List.map_cons]
    congr 1
    rw [← ih]
    apply List.filterMap_congr
    intro k1 hk1
    have hne : k1 ≠ k := fun he => hk (he ▸ hk1)
    exact List.dlookup_cons_ne l ⟨k, v⟩ hne

theorem rangeValues_perm {V : Type} (seed : Nat) (m : GoMap V) :
    (m.rangeValues seed).Perm m.values := by
  unfold GoMap.rangeValues GoMap.values
  have h := (rangeKeys_perm seed m).filterMap (fun k => m.lookup k)
  have h2 : m.keys.filterMap (fun k => m.lookup k) = m.entries.map (fun e => e.2) :=
    filterMap_dlookup_keys m.entries m.nodupKeys
  rw [h2] at h
  exact h

theorem mem_values_iff {V : Type} (m : GoMap V) (v : V) :
    v ∈ m.values ↔ ∃ k, m.lookup k = some v := by
  unfold GoMap.values
  constructor
  · intro h
    obtain ⟨e, he, hv⟩ := List.mem_map.1 h
    refine ⟨e.1, ?_⟩
    have : (⟨e.1, v⟩ : Sigma (fun _ : String => V)) ∈ m.entries := by
      rw [← hv]; exact he
    exact (AList.mem_lookup_iff).2 this
  · intro ⟨k, hk⟩
    have := (AList.mem_lookup_iff).1 hk
    exact List.mem_map.2 ⟨⟨k, v⟩, this, rfl⟩

theorem length_values {V : Type} (m : GoMap V) : m.values.length = m.len := by
  unfold GoMap.values GoMap.len AList.keys List.keys
  simp

theorem sendToAll_ok (u : User) (event : ChatEvent) : ∀ (userIDs : List String),
    (∀ id ∈ userIDs, id ∈ u.OtherUsers.keys) →
    u.sendToAll event userIDs = .ok ((userIDs.filterMap (fun k => u.OtherUsers.lookup k)).map
      (fun user => Send.mk user event)) := by
  intro userIDs
  induction userIDs with
  | nil => intro _; rfl
  | cons x xs ih =>
    intro h
    have hmem : x ∈ u.OtherUsers.keys := h x (List.mem_cons_self _ _)
    obtain ⟨p, hp⟩ := Option.isSome_iff_exists.1 (AList.lookup_isSome.2 (AList.mem_keys.2 hmem))
    have h1 := ih (fun id hid => h id (List.mem_cons_of_mem _ hid))
    simp only [User.sendToAll, User.sendVia, hp, h1, List.filterMap_cons, List.map_cons]

theorem sendToAll_range (u : User) (event : ChatEvent) (seed : Nat) :
    u.sendToAll event (u.OtherUsers.rangeKeys seed) =
      .ok ((u.OtherUsers.rangeValues seed).map (fun user => Send.mk user event)) :=
  sendToAll_ok u event _ (fun _ hid => mem_rangeKeys.1 hid)

theorem CloseChat_of_selected (u : User) (r : Rand) (room : ChatRoom)
    (hsel : u.getRandomChat r = .ok (.ok room)) :
    u.CloseChat r = .ok (Result.mk
      { u with UserChats := u.UserChats.erase room.ID }
      ((u.OtherUsers.rangeValues r.fanout).map
        (fun user => Send.mk user (u.closeEventFor room r.now)))
      (.ok (u.closeEventFor room r.now))) := by
  have h1 := sendToAll_range u (u.closeEventFor room r.now) r.fanout
  unfold User.closeEventFor at h1
  unfold User.CloseChat
  simp only [hsel]
  rw [h1]
  rfl

theorem NewChat_of_fresh (u : User) (r : Rand) (chosen : List String)
    (hch : u.chooseMembers r = .ok chosen)
    (hnew : u.UserChats.lookup (chatroomIDOf u.ID chosen) = none) :
    u.NewChat r = .ok (Result.mk
      { u with UserChats := u.UserChats.insert (chatroomIDOf u.ID chosen) (u.roomFor chosen) }
      ((u.OtherUsers.rangeValues r.fanout).map
        (fun user => Send.mk user (u.newChatEventFor chosen r.now)))
      (.ok (u.newChatEventFor chosen r.now))) := by
  unfold chatroomIDOf at hnew
  unfold User.NewChat
  simp only [hch, hnew, Option.isSome_none]
  rfl

theorem NewMessage_of_selected (u : User) (r : Rand) (room : ChatRoom)
    (hsel : u.getRandomChat r = .ok (.ok room))
    (hknown : ∀ id ∈ room.UserIDs, id ≠ u.ID → id ∈ u.OtherUsers.keys) :
    u.NewMessage r = .ok (Result.mk u
      (u.memberSends (u.messageEventFor room r.now) room.UserIDs)
      (.ok (u.messageEventFor room r.now))) := by
  obtain ⟨h1, _⟩ := sendToMembers_ok u (u.messageEventFor room r.now) room.UserIDs hknown
  unfold User.NewMessage
  simp only [hsel]
  unfold User.messageEventFor at h1
  rw [h1]
  rfl

theorem NewChat_otherUsers (u : User) (r : Rand) (res : Result) (h : u.NewChat r = .ok res) :
    res.user.OtherUsers = u.OtherUsers ∧ res.user.ID = u.ID := by
  rcases NewChat_user u r res h with h1 | ⟨chosen, h1⟩ <;> rw [h1] <;> exact ⟨rfl, rfl⟩

theorem NewMessage_otherUsers (u : User) (r : Rand) (res : Result)
    (h : u.NewMessage r = .ok res) :
    res.user.OtherUsers = u.OtherUsers ∧ res.user.ID = u.ID := by
  rw [NewMessage_user u r res h]
  exact ⟨rfl, rfl⟩

theorem CloseChat_otherUsers (u : User) (r : Rand) (res : Result)
    (h : u.CloseChat r = .ok res) :
    res.user.OtherUsers = u.OtherUsers ∧ res.user.ID = u.ID := by
  rcases CloseChat_user u r res h with h1 | ⟨room, _, h1⟩ <;> rw [h1] <;> exact ⟨rfl, rfl⟩

theorem keyInv_insert (u : User) (room : ChatRoom) (hinv : u.KeyInv) :
    User.KeyInv { u with UserChats := u.UserChats.insert room.ID room } := by
  intro k1 room1 h
  by_cases hk : k1 = room.ID
  · subst hk
    simp only [AList.lookup_insert, Option.some.injEq] at h
    rw [← h]
  · simp only [AList.lookup_insert_ne hk] at h
    exact hinv k1 room1 h

theorem keyInv_erase (u : User) (k : String) (hinv : u.KeyInv) :
    User.KeyInv { u with UserChats := u.UserChats.erase k } := by
  intro k1 room1 h
  by_cases hk : k1 = k
  · subst hk
    simp [AList.lookup_erase] at h
  · simp only [AList.lookup_erase_ne hk] at h
    exact hinv k1 room1 h

/-- One operation keeps every room stored under its own id. -/
theorem apply_keyInv (u u1 : User) (op : Op) (hinv : u.KeyInv)
    (h : u.apply op = .ok u1) : u1.KeyInv := by
  cases op with
  | newUser p seed =>
    simp only [User.apply, User.handleNewUser, Except.ok.injEq] at h
    subst h
    exact hinv
  | newChatEvent room =>
    simp only [User.apply, Except.ok.injEq] at h
    subst h
    by_cases hm : u.ID ∈ room.UserIDs
    · rw [handleNewChat_fst_of_mem u room hm]
      exact keyInv_insert u room hinv
    · rw [handleNewChat_fst_of_not_mem u room hm]
      exact hinv
  | chatClose chatID =>
    simp only [User.apply, User.handleChatClose, Except.ok.injEq] at h
    subst h
    exact keyInv_erase u _ hinv
  | newChat r =>
    simp only [User.apply] at h
    cases hres : u.NewChat r with
    | error f => rw [hres] at h; cases h
    | ok res =>
      rw [hres] at h
      simp only [Except.map, Except.ok.injEq] at h
      subst h
      rcases NewChat_user u r res hres with h1 | ⟨chosen, h1⟩
      · rw [h1]; exact hinv
      · rw [h1]
        exact keyInv_insert u (u.roomFor chosen) hinv
  | newMessage r =>
    simp only [User.apply] at h
    cases hres : u.NewMessage r with
    | error f => rw [hres] at h; cases h
    | ok res =>
      rw [hres] at h
      simp only [Except.map, Except.ok.injEq] at h
      subst h
      rw [NewMessage_user u r res hres]
      exact hinv
  | closeChat r =>
    simp only [User.apply] at h
    cases hres : u.CloseChat r with
    | error f => rw [hres] at h; cases h
    | ok res =>
      rw [hres] at h
      simp only [Except.map, Except.ok.injEq] at h
      subst h
      rcases CloseChat_user u r res hres with h1 | ⟨room, _, h1⟩
      · rw [h1]; exact hinv
      · rw [h1]
        exact keyInv_erase u _ hinv

theorem execute_keyInv (ops : List Op) : ∀ (u u1 : User), u.KeyInv →
    u.execute ops = .ok u1 → u1.KeyInv := by
  induction ops with
  | nil =>
    intro u u1 hinv h
    simp only [User.execute, Except.ok.injEq] at h
    subst h
    exact hinv
  | cons op ops ih =>
    intro u u1 hinv h
    simp only [User.execute] at h
    cases hstep : u.apply op with
    | error f => rw [hstep] at h; cases h
    | ok u2 =>
      rw [hstep] at h
      exact ih u2 u1 (apply_keyInv u u2 op hinv hstep) h

theorem keyInv_of_empty (u : User) (h : u.UserChats = ∅) : u.KeyInv := by
  intro k room hl
  rw [h] at hl
  simp at hl

/-- One operation keeps the keys of `OtherUsers`, changes `OtherUsers` only if it is
`handleNewUser`, and keeps every peer stored under its own id. -/
theorem apply_otherUsers (u u1 : User) (op : Op) (h : u.apply op = .ok u1) :
    (∀ k, k ∈ u.OtherUsers.keys → k ∈ u1.OtherUsers.keys) ∧
    ((∀ p seed, op ≠ Op.newUser p seed) → u1.OtherUsers = u.OtherUsers) ∧
    (u.PeerInv → u1.PeerInv) := by
  have hsame : u1.OtherUsers = u.OtherUsers →
      (∀ k, k ∈ u.OtherUsers.keys → k ∈ u1.OtherUsers.keys) ∧
      ((∀ p seed, op ≠ Op.newUser p seed) → u1.OtherUsers = u.OtherUsers) ∧
      (u.PeerInv → u1.PeerInv) := by
    intro he
    refine ⟨fun k hk => by rw [he]; exact hk, fun _ => he, fun hinv k p hl => ?_⟩
    rw [he] at hl
    exact hinv k p hl
  cases op with
  | newUser p seed =>
    simp only [User.apply, User.handleNewUser, Except.ok.injEq] at h
    subst h
    refine ⟨fun k hk => ?_, fun hne => absurd rfl (hne p seed), fun hinv k q hl => ?_⟩
    · exact AList.mem_keys.1 ((AList.mem_insert _).2 (Or.inr (AList.mem_keys.2 hk)))
    · by_cases hk : k = p.ID
      · subst hk
        simp only [AList.lookup_insert, Option.some.injEq] at hl
        rw [← hl]
      · simp only [AList.lookup_insert_ne hk] at hl
        exact hinv k q hl
  | newChatEvent room =>
    simp only [User.apply, Except.ok.injEq] at h
    subst h
    apply hsame
    by_cases hm : u.ID ∈ room.UserIDs
    · rw [handleNewChat_fst_of_mem u room hm]
    · rw [handleNewChat_fst_of_not_mem u room hm]
  | chatClose chatID =>
    simp only [User.apply, User.handleChatClose, Except.ok.injEq] at h
    subst h
    exact hsame rfl
  | newChat r =>
    simp only [User.apply] at h
    cases hres : u.NewChat r with
    | error f => rw [hres] at h; cases h
    | ok res =>
      rw [hres] at h
      simp only [Except.map, Except.ok.injEq] at h
      subst h
      exact hsame (NewChat_otherUsers u r res hres).1
  | newMessage r =>
    simp only [User.apply] at h
    cases hres : u.NewMessage r with
    | error f => rw [hres] at h; cases h
    | ok res =>
      rw [hres] at h
      simp only [Except.map, Except.ok.injEq] at h
      subst h
      exact hsame (NewMessage_otherUsers u r res hres).1
  | closeChat r =>
    simp only [User.apply] at h
    cases hres : u.CloseChat r with
    | error f => rw [hres] at h; cases h
    | ok res =>
      rw [hres] at h
      simp only [Except.map, Except.ok.injEq] at h
      subst h
      exact hsame (CloseChat_otherUsers u r res hres).1

theorem execute_peerInv (ops : List Op) : ∀ (u u1 : User), u.PeerInv →
    u.execute ops = .ok u1 → u1.PeerInv := by
  induction ops with
  | nil =>
    intro u u1 hinv h
    simp only [User.execute, Except.ok.injEq] at h
    subst h
    exact hinv
  | cons op ops ih =>
    intro u u1 hinv h
    simp only [User.execute] at h
    cases hstep : u.apply op with
    | error f => rw [hstep] at h; cases h
    | ok u2 =>
      rw [hstep] at h
      exact ih u2 u1 ((apply_otherUsers u u2 op hstep).2.2 hinv) h

theorem peerInv_of_empty (u : User) (h : u.OtherUsers = ∅) : u.PeerInv := by
  intro k p hl
  rw [h] at hl
  simp at hl

/-! ## Effects of the three actions -/

theorem targets_map_send (vs : List UserRef) (event : ChatEvent) :
    (vs.map (fun user => Send.mk user event)).map Send.target = vs := by
  induction vs with
  | nil => rfl
  | cons v vs ih => simp only [List.map_cons, ih]

theorem event_of_mem_map_send (vs : List UserRef) (event : ChatEvent) (s : Send)
    (h : s ∈ vs.map (fun user => Send.mk user event)) : s.event = event ∧ s.target ∈ vs := by
  obtain ⟨v, hv, hs⟩ := List.mem_map.1 h
  rw [← hs]
  exact ⟨rfl, hv⟩

/-- C11 as stated fails: user `A` that received its own presence notification has
non-empty `OtherUsers`, the derived id `A_A` is not in its `UserChats`, and the one
send of its `NewChat` is addressed to `A` itself. -/
theorem C11_creator_receives_own_event :
    userKnowingItself.OtherUsers ≠ ∅ ∧
    userKnowingItself.chooseMembers ⟨0, 0, 0, 0, 0⟩ = .ok ["A"] ∧
    userKnowingItself.UserChats.lookup (chatroomIDOf "A" ["A"]) = none ∧
    (userKnowingItself.NewChat ⟨0, 0, 0, 0, 0⟩).map (fun res => res.sent.map Send.target) =
      .ok [userKnowingItself.ref] :=
  ⟨fun h => absurd (congrArg GoMap.len h) (by decide), rfl, rfl, rfl⟩

/-- C11, amended: create-chat success effects.  For every user `u` with non-empty
`OtherUsers` the selection goes through, and whenever the derived id is not already in
`UserChats`, `NewChat` returns an event of type `ChatEventNew` carrying the new room,
issues exactly one send of that event to each user stored in `OtherUsers` (all known
peers, not only the chosen members), none of them to `u` itself provided `u` is not
stored in its own `OtherUsers`, and afterwards `UserChats` maps the derived id to the
new room with every other entry (and `OtherUsers`) unchanged. -/
theorem C11_new_chat_success (u : User) (r : Rand) (hne : u.OtherUsers ≠ ∅) :
    ∃ chosen, u.chooseMembers r = .ok chosen ∧
      (u.UserChats.lookup (chatroomIDOf u.ID chosen) = none →
        ∃ res event, u.NewChat r = .ok res ∧ res.ret = .ok event ∧
          event.Typ = ChatEventNew ∧ event.ChatRoom = u.roomFor chosen ∧
          event.User = u.ref ∧
          (res.sent.map Send.target).Perm u.OtherUsers.values ∧
          res.sent.length = u.OtherUsers.len ∧
          (∀ s ∈ res.sent, s.event = event) ∧
          ((∀ p ∈ u.OtherUsers.values, p.addr ≠ u.addr) →
            ∀ s ∈ res.sent, s.target.addr ≠ u.addr) ∧
          res.user.UserChats.lookup (chatroomIDOf u.ID chosen) = some (u.roomFor chosen) ∧
          (∀ k, k ≠ chatroomIDOf u.ID chosen →
            res.user.UserChats.lookup k = u.UserChats.lookup k) ∧
          res.user.OtherUsers = u.OtherUsers ∧ res.user.ID = u.ID) := by
  have hlen : u.OtherUsers.len ≠ 0 := fun h0 => hne ((eq_empty_iff_len _).2 h0)
  obtain ⟨chosen, hch, _⟩ := chooseMembers_ok u r hlen
  refine ⟨chosen, hch, fun hnew => ?_⟩
  have hperm := rangeValues_perm r.fanout u.OtherUsers
  refine ⟨_, _, NewChat_of_fresh u r chosen hch hnew, rfl, rfl, rfl, rfl, ?_, ?_, ?_, ?_,
    AList.lookup_insert _, fun k hk => AList.lookup_insert_ne hk, rfl, rfl⟩
  · simp only [targets_map_send]
    exact hperm
  · simp only [List.length_map]
    rw [hperm.length_eq, length_values]
  · intro s hs
    exact (event_of_mem_map_send _ _ s hs).1
  · intro hself s hs
    exact hself _ (hperm.mem_iff.1 (event_of_mem_map_send _ _ s hs).2)

/-- Witness of the amended C11: `A` knows `B`, `C`, `D`, picks `B` and `D`, and every
one of the three peers is sent the event. -/
theorem C11_new_chat_success_witness :
    userWithPeers.OtherUsers ≠ ∅ ∧
    userWithPeers.UserChats.lookup (chatroomIDOf userWithPeers.ID ["B", "D"]) = none ∧
    (userWithPeers.NewChat ⟨4, 1, 3, 0, 0⟩).map (fun res => recipients res.sent) =
      .ok ["D", "C", "B"] ∧
    ∃ chosen, userWithPeers.chooseMembers ⟨4, 1, 3, 0, 0⟩ = .ok chosen ∧
      (userWithPeers.UserChats.lookup (chatroomIDOf userWithPeers.ID chosen) = none →
        ∃ res event, userWithPeers.NewChat ⟨4, 1, 3, 0, 0⟩ = .ok res ∧ res.ret = .ok event ∧
          event.Typ = ChatEventNew ∧ res.sent.length = userWithPeers.OtherUsers.len) := by
  have hne : userWithPeers.OtherUsers ≠ ∅ := fun h => absurd (congrArg GoMap.len h) (by decide)
  obtain ⟨chosen, hch, himp⟩ := C11_new_chat_success userWithPeers ⟨4, 1, 3, 0, 0⟩ hne
  refine ⟨hne, rfl, rfl, chosen, hch, fun hnew => ?_⟩
  obtain ⟨res, event, h1, h2, h3, _, _, _, h7, _⟩ := himp hnew
  exact ⟨res, event, h1, h2, h3, h7⟩


theorem mem_memberSends (u : User) (event : ChatEvent) (userIDs : List String) (s : Send) :
    s ∈ u.memberSends event userIDs ↔
      ∃ id ∈ userIDs, id ≠ u.ID ∧ u.OtherUsers.lookup id = some s.target ∧ s.event = event := by
  unfold User.memberSends
  simp only [List.mem_filterMap, List.mem_filter, decide_eq_true_eq, Option.map_eq_some']
  constructor
  · rintro ⟨id, ⟨hid, hne⟩, p, hp, hs⟩
    rw [← hs]
    exact ⟨id, hid, hne, hp, rfl⟩
  · rintro ⟨id, hid, hne, hp, hs⟩
    refine ⟨id, ⟨hid, hne⟩, s.target, hp, ?_⟩
    rw [← hs]

/-- C12: send-message fan-out.  For every user `u` with non-empty `UserChats` in which
every member of every joined room other than `u.ID` is a key of `OtherUsers`,
`NewMessage` returns an event of type `ChatEventMessage` whose room is one of the
values of `UserChats`; the sends are one per member id of that room other than `u.ID`,
each carrying the event to the peer that `OtherUsers` stores under that id, and every
such member id is served, so none goes out for `u.ID` or for an id outside the room;
where every peer is stored under its own id (as `handleNewUser` stores it), the ids of
the recipients are exactly the room's `UserIDs` minus `u.ID`; and the user
(`UserChats` and `OtherUsers` included) is unchanged. -/
theorem C12_message_fan_out (u : User) (r : Rand) (hne : u.UserChats ≠ ∅)
    (hknown : ∀ k room, u.UserChats.lookup k = some room →
      ∀ id ∈ room.UserIDs, id ≠ u.ID → id ∈ u.OtherUsers.keys) :
    ∃ chatID room res event, u.UserChats.lookup chatID = some room ∧
      u.NewMessage r = .ok res ∧ res.ret = .ok event ∧
      event.Typ = ChatEventMessage ∧ event.ChatRoom = room ∧ event.User = u.ref ∧
      res.sent.length = (room.UserIDs.filter (fun id => id ≠ u.ID)).length ∧
      (∀ s ∈ res.sent, s.event = event ∧
        ∃ id ∈ room.UserIDs, id ≠ u.ID ∧ u.OtherUsers.lookup id = some s.target) ∧
      (∀ id ∈ room.UserIDs, id ≠ u.ID →
        ∃ s ∈ res.sent, u.OtherUsers.lookup id = some s.target) ∧
      (u.PeerInv → ∀ id, id ∈ recipients res.sent ↔ id ∈ room.UserIDs ∧ id ≠ u.ID) ∧
      res.user = u ∧ res.user.UserChats = u.UserChats ∧
      res.user.OtherUsers = u.OtherUsers := by
  have hlen : u.UserChats.len ≠ 0 := fun h0 => hne ((eq_empty_iff_len _).2 h0)
  obtain ⟨chatID, room, _, hlook, _, hsel⟩ := getRandomChat_of_nonempty u r hlen
  have hk := hknown chatID room hlook
  have hsend := NewMessage_of_selected u r room hsel hk
  have hserved : ∀ id ∈ room.UserIDs, id ≠ u.ID →
      ∃ s ∈ u.memberSends (u.messageEventFor room r.now) room.UserIDs,
        u.OtherUsers.lookup id = some s.target := by
    intro id hid hself
    obtain ⟨p, hp⟩ := Option.isSome_iff_exists.1
      (AList.lookup_isSome.2 (AList.mem_keys.2 (hk id hid hself)))
    exact ⟨Send.mk p (u.messageEventFor room r.now),
      (mem_memberSends u _ _ _).2 ⟨id, hid, hself, hp, rfl⟩, hp⟩
  refine ⟨chatID, room, _, _, hlook, hsend, rfl, rfl, rfl, rfl,
    (sendToMembers_ok u _ room.UserIDs hk).2, ?_, hserved, ?_, rfl, rfl, rfl⟩
  · intro s hs
    obtain ⟨id, hid, hself, hp, hev⟩ := (mem_memberSends u _ _ s).1 hs
    exact ⟨hev, id, hid, hself, hp⟩
  · intro hinv id
    unfold recipients
    simp only [List.mem_map]
    constructor
    · rintro ⟨s, hs, hsid⟩
      obtain ⟨id1, hid1, hself, hp, _⟩ := (mem_memberSends u _ _ s).1 hs
      have := hinv id1 s.target hp
      rw [← hsid, this]
      exact ⟨hid1, hself⟩
    · rintro ⟨hid, hself⟩
      obtain ⟨s, hs, hp⟩ := hserved id hid hself
      exact ⟨s, hs, hinv id s.target hp⟩

/-- Witness of C12: `A` knows `B`, `C`, `D` and holds `A_B_D`; the message goes to `B`
and `D` and not to `C`. -/
theorem C12_message_fan_out_witness :
    userInRoom.UserChats ≠ ∅ ∧
    (∀ k room, userInRoom.UserChats.lookup k = some room →
      ∀ id ∈ room.UserIDs, id ≠ userInRoom.ID → id ∈ userInRoom.OtherUsers.keys) ∧
    (userInRoom.NewMessage ⟨0, 0, 0, 0, 0⟩).map (fun res => recipients res.sent) =
      .ok ["B", "D"] ∧
    ∃ chatID room res event, userInRoom.UserChats.lookup chatID = some room ∧
      userInRoom.NewMessage ⟨0, 0, 0, 0, 0⟩ = .ok res ∧ res.ret = .ok event ∧
      event.Typ = ChatEventMessage ∧ event.ChatRoom = room ∧ res.user = userInRoom := by
  have hne : userInRoom.UserChats ≠ ∅ := fun h => absurd (congrArg GoMap.len h) (by decide)
  have hknown : ∀ k room, userInRoom.UserChats.lookup k = some room →
      ∀ id ∈ room.UserIDs, id ≠ userInRoom.ID → id ∈ userInRoom.OtherUsers.keys := by
    intro k room hl
    have hmem : (⟨k, room⟩ : Sigma (fun _ : String => ChatRoom)) ∈ userInRoom.UserChats.entries :=
      AList.mem_lookup_iff.1 hl
    have hentries : userInRoom.UserChats.entries = [⟨"A_B_D", ⟨"A_B_D", ["A", "B", "D"]⟩⟩] := rfl
    rw [hentries, List.mem_singleton] at hmem
    cases hmem
    decide
  obtain ⟨chatID, room, res, event, h1, h2, h3, h4, h5, _, _, _, _, _, h11, _⟩ :=
    C12_message_fan_out userInRoom ⟨0, 0, 0, 0, 0⟩ hne hknown
  exact ⟨hne, hknown, rfl, chatID, room, res, event, h1, h2, h3, h4, h5, h11⟩


theorem CloseChat_of_nonempty (u : User) (r : Rand) (h : u.UserChats.len ≠ 0) :
    ∃ chatID room, chatID ∈ u.UserChats.keys ∧ u.UserChats.lookup chatID = some room ∧
      (u.UserChats.rangeKeys r.keys)[r.intn % u.UserChats.len]? = some chatID ∧
      u.CloseChat r = .ok (Result.mk
        { u with UserChats := u.UserChats.erase room.ID }
        ((u.OtherUsers.rangeValues r.fanout).map
          (fun user => Send.mk user (u.closeEventFor room r.now)))
        (.ok (u.closeEventFor room r.now))) := by
  obtain ⟨chatID, room, hmem, hlook, hidx, hsel⟩ := getRandomChat_of_nonempty u r h
  exact ⟨chatID, room, hmem, hlook, hidx, CloseChat_of_selected u r room hsel⟩

theorem len_erase_of_mem {V : Type} (m : GoMap V) (k : String) (h : k ∈ m.keys) :
    GoMap.len (m.erase k) + 1 = m.len := by
  unfold GoMap.len
  rw [AList.keys_erase, List.length_erase_of_mem h]
  have : 0 < m.keys.length := List.length_pos_of_mem h
  omega

/-- C13: close-chat effects.  For every user state reached from empty `UserChats` by a
finite sequence of operations, with non-empty `UserChats`, and every random outcome,
`CloseChat` returns an event of type `ChatEventClose` whose room was a value of
`UserChats` before the call, issues exactly one send of that event to each user stored
in `OtherUsers` (every known peer, members or not), and afterwards the selected room
is no longer in `UserChats`, whose size has decreased by exactly one with all other
entries (and `OtherUsers`) unchanged. -/
theorem C13_close_chat_effects (u0 u : User) (ops : List Op) (r : Rand)
    (hempty : u0.UserChats = ∅) (hrun : u0.execute ops = .ok u) (hne : u.UserChats ≠ ∅) :
    ∃ chatID room res event, u.UserChats.lookup chatID = some room ∧
      u.CloseChat r = .ok res ∧ res.ret = .ok event ∧
      event.Typ = ChatEventClose ∧ event.ChatRoom = room ∧ event.User = u.ref ∧
      (res.sent.map Send.target).Perm u.OtherUsers.values ∧
      res.sent.length = u.OtherUsers.len ∧
      (∀ s ∈ res.sent, s.event = event) ∧
      res.user.UserChats.lookup chatID = none ∧
      room ∉ res.user.UserChats.values ∧
      res.user.UserChats.len + 1 = u.UserChats.len ∧
      (∀ k, k ≠ chatID → res.user.UserChats.lookup k = u.UserChats.lookup k) ∧
      res.user.OtherUsers = u.OtherUsers ∧ res.user.ID = u.ID := by
  have hinv : u.KeyInv := execute_keyInv ops u0 u (keyInv_of_empty u0 hempty) hrun
  have hlen : u.UserChats.len ≠ 0 := fun h0 => hne ((eq_empty_iff_len _).2 h0)
  obtain ⟨chatID, room, hmem, hlook, _, hclose⟩ := CloseChat_of_nonempty u r hlen
  have hid : room.ID = chatID := hinv chatID room hlook
  have hperm := rangeValues_perm r.fanout u.OtherUsers
  refine ⟨chatID, room, _, _, hlook, hclose, rfl, rfl, rfl, rfl, ?_, ?_, ?_, ?_, ?_, ?_, ?_,
    rfl, rfl⟩
  · simp only [targets_map_send]
    exact hperm
  · simp only [List.length_map]
    rw [hperm.length_eq, length_values]
  · intro s hs
    exact (event_of_mem_map_send _ _ s hs).1
  · show (u.UserChats.erase room.ID).lookup chatID = none
    rw [hid]
    exact AList.lookup_erase chatID _
  · show room ∉ GoMap.values (u.UserChats.erase room.ID)
    intro hval
    obtain ⟨k, hk⟩ := (mem_values_iff _ room).1 hval
    by_cases hkc : k = room.ID
    · rw [hkc, AList.lookup_erase] at hk
      cases hk
    · rw [AList.lookup_erase_ne hkc] at hk
      exact hkc (hinv k room hk).symm
  · show GoMap.len (u.UserChats.erase room.ID) + 1 = u.UserChats.len
    rw [hid]
    exact len_erase_of_mem _ _ hmem
  · intro k hk
    show (u.UserChats.erase room.ID).lookup k = u.UserChats.lookup k
    rw [hid]
    exact AList.lookup_erase_ne hk

/-- Witness of C13: `A`, from its start, learns of `B` and is told of the room `A_B`;
closing it sends the event to `B` and leaves `A` without rooms. -/
theorem C13_close_chat_effects_witness :
    (User.mkUser "A" 1).UserChats = ∅ ∧
    (User.mkUser "A" 1).execute
      [Op.newUser ⟨"B", 2⟩ 0, Op.newChatEvent ⟨"A_B", ["A", "B"]⟩] = .ok userWithRoom ∧
    userWithRoom.UserChats ≠ ∅ ∧
    (userWithRoom.CloseChat ⟨0, 0, 0, 0, 0⟩).map
      (fun res => (recipients res.sent, res.user.UserChats.keys)) = .ok (["B"], []) ∧
    ∃ chatID room res event, userWithRoom.UserChats.lookup chatID = some room ∧
      userWithRoom.CloseChat ⟨0, 0, 0, 0, 0⟩ = .ok res ∧ res.ret = .ok event ∧
      event.Typ = ChatEventClose ∧ res.user.UserChats.len + 1 = userWithRoom.UserChats.len := by
  have hne : userWithRoom.UserChats ≠ ∅ := fun h => absurd (congrArg GoMap.len h) (by decide)
  obtain ⟨chatID, room, res, event, h1, h2, h3, h4, _, _, _, _, _, _, _, h12, _⟩ :=
    C13_close_chat_effects (User.mkUser "A" 1) userWithRoom
      [Op.newUser ⟨"B", 2⟩ 0, Op.newChatEvent ⟨"A_B", ["A", "B"]⟩] ⟨0, 0, 0, 0, 0⟩ rfl rfl hne
  exact ⟨rfl, rfl, hne, rfl, chatID, room, res, event, h1, h2, h3, h4, h12⟩

/-! ## Idempotence, monotonicity and room identity -/

/-- C14: presence idempotence.  For every user `u` and every peer `p`, calling
`handleNewUser(p)` twice leaves the user (`OtherUsers` included) equal to the state
after calling it once, with exactly one entry for `p.ID`, mapping to `p`; every other
entry and `UserChats` are unchanged; and the returned id list, after either call, has
one element per key of `OtherUsers` and contains `p.ID`. -/
theorem C14_presence_idempotence (u : User) (p : UserRef) (seed1 seed2 : Nat) :
    ((u.handleNewUser p seed1).1.handleNewUser p seed2).1 = (u.handleNewUser p seed1).1 ∧
    ((u.handleNewUser p seed1).1.handleNewUser p seed2).1.OtherUsers =
      (u.handleNewUser p seed1).1.OtherUsers ∧
    (u.handleNewUser p seed1).1.OtherUsers.lookup p.ID = some p ∧
    (u.handleNewUser p seed1).1.OtherUsers.keys.count p.ID = 1 ∧
    (∀ k, k ≠ p.ID →
      (u.handleNewUser p seed1).1.OtherUsers.lookup k = u.OtherUsers.lookup k) ∧
    (u.handleNewUser p seed1).1.UserChats = u.UserChats ∧
    (u.handleNewUser p seed1).1.ID = u.ID ∧
    (u.handleNewUser p seed1).2.Perm (u.handleNewUser p seed1).1.OtherUsers.keys ∧
    (u.handleNewUser p seed1).2.Nodup ∧
    p.ID ∈ (u.handleNewUser p seed1).2 ∧
    ((u.handleNewUser p seed1).1.handleNewUser p seed2).2.Perm
      (u.handleNewUser p seed1).1.OtherUsers.keys ∧
    p.ID ∈ ((u.handleNewUser p seed1).1.handleNewUser p seed2).2 := by
  have hmemkeys : p.ID ∈ (AList.insert p.ID p u.OtherUsers).keys :=
    AList.mem_keys.1 ((AList.mem_insert _).2 (Or.inl rfl))
  have hperm : ∀ seed, (GoMap.rangeKeys seed (AList.insert p.ID p u.OtherUsers)).Perm
      (AList.insert p.ID p u.OtherUsers).keys := fun seed => rangeKeys_perm seed _
  have htwice : ((u.handleNewUser p seed1).1.handleNewUser p seed2).1 =
      (u.handleNewUser p seed1).1 := by
    simp only [User.handleNewUser, AList.insert_insert]
  refine ⟨htwice, by rw [htwice], AList.lookup_insert _, ?_,
    fun k hk => AList.lookup_insert_ne hk, rfl, rfl, hperm seed1, ?_, ?_, ?_, ?_⟩
  · exact List.count_eq_one_of_mem (AList.keys_nodup _) hmemkeys
  · exact (hperm seed1).nodup_iff.2 (AList.keys_nodup _)
  · exact (hperm seed1).mem_iff.2 hmemkeys
  · simp only [User.handleNewUser, User.otherUserIDs, AList.insert_insert]
    exact hperm seed2
  · simp only [User.handleNewUser, User.otherUserIDs, AList.insert_insert]
    exact (hperm seed2).mem_iff.2 hmemkeys

/-- Witness of C14: `A` knowing `B`, `C`, `D` is told of `C` again, twice. -/
theorem C14_presence_idempotence_witness :
    "B" ≠ (UserRef.mk "C" 3).ID ∧
    (userWithPeers.handleNewUser ⟨"C", 3⟩ 1).1.OtherUsers.lookup "B" =
      userWithPeers.OtherUsers.lookup "B" ∧
    (userWithPeers.handleNewUser ⟨"C", 3⟩ 1).1.OtherUsers.keys = ["C", "D", "B"] ∧
    ((userWithPeers.handleNewUser ⟨"C", 3⟩ 1).1.handleNewUser ⟨"C", 3⟩ 2).1 =
      (userWithPeers.handleNewUser ⟨"C", 3⟩ 1).1 :=
  ⟨by decide, (C14_presence_idempotence userWithPeers ⟨"C", 3⟩ 1 2).2.2.2.2.1 "B" (by decide),
   rfl, (C14_presence_idempotence userWithPeers ⟨"C", 3⟩ 1 2).1⟩

/-- C15: NEW idempotence.  For every user `u` and every room `r`, delivering the same
NEW event twice (`handleNewChat(r)` applied twice) yields the same user, hence the
same `UserChats`, and the same boolean result as delivering it once, and `UserChats`
holds at most one entry for `r.ID`. -/
theorem C15_new_idempotence (u : User) (r : ChatRoom) :
    ((u.handleNewChat r).1.handleNewChat r).1 = (u.handleNewChat r).1 ∧
    ((u.handleNewChat r).1.handleNewChat r).1.UserChats = (u.handleNewChat r).1.UserChats ∧
    ((u.handleNewChat r).1.handleNewChat r).2 = (u.handleNewChat r).2 ∧
    (u.handleNewChat r).1.UserChats.keys.count r.ID ≤ 1 ∧
    ((u.handleNewChat r).1.handleNewChat r).1.UserChats.keys.count r.ID ≤ 1 := by
  have hcount : ∀ m : GoMap ChatRoom, m.keys.count r.ID ≤ 1 := fun m =>
    List.nodup_iff_count_le_one.1 m.keys_nodup r.ID
  have hsame : ((u.handleNewChat r).1.handleNewChat r).1 = (u.handleNewChat r).1 := by
    by_cases hm : u.ID ∈ r.UserIDs
    · have h1 := handleNewChat_fst_of_mem u r hm
      have h2 := handleNewChat_fst_of_mem
        ({ u with UserChats := u.UserChats.insert r.ID r }) r hm
      rw [h1, h2]
      simp only [AList.insert_insert]
    · have h1 := handleNewChat_fst_of_not_mem u r hm
      rw [h1, h1]
  refine ⟨hsame, by rw [hsame], ?_, hcount _, hcount _⟩
  rw [handleNewChat_snd, handleNewChat_snd]
  have hid : (u.handleNewChat r).1.ID = u.ID := by
    by_cases hm : u.ID ∈ r.UserIDs
    · rw [handleNewChat_fst_of_mem u r hm]
    · rw [handleNewChat_fst_of_not_mem u r hm]
  rw [hid]

/-- C16: the peer registry only grows.  For every user and each of `handleNewUser`,
`handleNewChat`, `handleChatClose`, `NewChat`, `NewMessage` and `CloseChat`, every id
that is a key of `OtherUsers` before the operation is still a key after it; all of
them but `handleNewUser` leave `OtherUsers` as it was; and so every key survives every
finite sequence of operations. -/
theorem C16_peer_registry_grows (u : User) :
    (∀ p seed k, k ∈ u.OtherUsers.keys → k ∈ (u.handleNewUser p seed).1.OtherUsers.keys) ∧
    (∀ room, (u.handleNewChat room).1.OtherUsers = u.OtherUsers) ∧
    (∀ chatID, (u.handleChatClose chatID).OtherUsers = u.OtherUsers) ∧
    (∀ r res, u.NewChat r = .ok res → res.user.OtherUsers = u.OtherUsers) ∧
    (∀ r res, u.NewMessage r = .ok res → res.user.OtherUsers = u.OtherUsers) ∧
    (∀ r res, u.CloseChat r = .ok res → res.user.OtherUsers = u.OtherUsers) ∧
    (∀ ops u1, u.execute ops = .ok u1 → ∀ k, k ∈ u.OtherUsers.keys → k ∈ u1.OtherUsers.keys) := by
  refine ⟨?_, ?_, fun _ => rfl, fun r res h => (NewChat_otherUsers u r res h).1,
    fun r res h => (NewMessage_otherUsers u r res h).1,
    fun r res h => (CloseChat_otherUsers u r res h).1, ?_⟩
  · intro p seed k hk
    exact AList.mem_keys.1 ((AList.mem_insert _).2 (Or.inr (AList.mem_keys.2 hk)))
  · intro room
    by_cases hm : u.ID ∈ room.UserIDs
    · rw [handleNewChat_fst_of_mem u room hm]
    · rw [handleNewChat_fst_of_not_mem u room hm]
  · intro ops
    induction ops generalizing u with
    | nil =>
      intro u1 h k hk
      simp only [User.execute, Except.ok.injEq] at h
      rw [← h]
      exact hk
    | cons op ops ih =>
      intro u1 h k hk
      simp only [User.execute] at h
      cases hstep : u.apply op with
      | error f => rw [hstep] at h; cases h
      | ok u2 =>
        rw [hstep] at h
        exact ih u2 u1 h k ((apply_otherUsers u u2 op hstep).1 k hk)

/-- Witness of C16: `A` knowing `B` is told of `C`, creates a room and closes one;
`B` is still a key of `OtherUsers`. -/
theorem C16_peer_registry_grows_witness :
    "B" ∈ userWithRoom.OtherUsers.keys ∧
    (∃ u1, userWithRoom.execute
        [Op.newUser ⟨"C", 3⟩ 0, Op.newChat ⟨1, 0, 0, 0, 0⟩, Op.closeChat ⟨0, 0, 0, 0, 0⟩] =
          .ok u1 ∧ "B" ∈ u1.OtherUsers.keys) ∧
    (userWithRoom.CloseChat ⟨0, 0, 0, 0, 0⟩).map (fun res => res.user.OtherUsers) =
      .ok userWithRoom.OtherUsers :=
  ⟨by decide,
   ⟨_, rfl, (C16_peer_registry_grows userWithRoom).2.2.2.2.2.2
      [Op.newUser ⟨"C", 3⟩ 0, Op.newChat ⟨1, 0, 0, 0, 0⟩, Op.closeChat ⟨0, 0, 0, 0, 0⟩] _ rfl
      "B" (by decide)⟩,
   rfl⟩

/-- C17: room identity.  For every successful `NewChat`, the created room's `UserIDs`
are in ascending order (the order of `sort.Strings`) and contain the creator's id, and
the room's `ID` equals the concatenation of its `UserIDs` separated by `"_"`, which is
also the key that was looked up for a duplicate (and not found) and the key under
which the room is stored afterwards. -/
theorem C17_room_identity (u : User) (r : Rand) (res : Result) (event : ChatEvent)
    (h : u.NewChat r = .ok res) (he : res.ret = .ok event) :
    event.Typ = ChatEventNew ∧
    event.ChatRoom.UserIDs.Sorted strLE ∧
    u.ID ∈ event.ChatRoom.UserIDs ∧
    event.ChatRoom.ID = stringsJoin event.ChatRoom.UserIDs "_" ∧
    u.UserChats.lookup (stringsJoin event.ChatRoom.UserIDs "_") = none ∧
    res.user.UserChats.lookup (stringsJoin event.ChatRoom.UserIDs "_") = some event.ChatRoom ∧
    res.user.UserChats = u.UserChats.insert (stringsJoin event.ChatRoom.UserIDs "_")
      event.ChatRoom := by
  obtain ⟨chosen, hch, h1 | h1⟩ := NewChat_ok u r res h
  · rw [h1.2.2.2] at he
    cases he
  · obtain ⟨hnone, huser, _, hret⟩ := h1
    rw [hret] at he
    simp only [Except.ok.injEq] at he
    subst he
    refine ⟨rfl, sortStrings_sorted _, creator_mem_roomFor u chosen, rfl, hnone, ?_, ?_⟩
    · rw [huser]
      exact AList.lookup_insert _
    · rw [huser]
      rfl

/-- Witness of C17: `A` knowing `B`, `C`, `D` picks `D` and `B`, in that order; the
room lists `A`, `B`, `D` and is stored under `A_B_D`. -/
theorem C17_room_identity_witness :
    ∃ res event, userWithPeers.NewChat ⟨4, 0, 3, 0, 0⟩ = .ok res ∧ res.ret = .ok event ∧
      event.ChatRoom = ⟨"A_B_D", ["A", "B", "D"]⟩ ∧
      event.ChatRoom.UserIDs.Sorted strLE ∧
      res.user.UserChats.lookup "A_B_D" = some event.ChatRoom :=
  ⟨_, _, rfl, rfl, rfl,
   (C17_room_identity userWithPeers ⟨4, 0, 3, 0, 0⟩ _ _ rfl rfl).2.1,
   (C17_room_identity userWithPeers ⟨4, 0, 3, 0, 0⟩ _ _ rfl rfl).2.2.2.2.2.1⟩

/-! ## The scenario of three users -/

theorem pickOrder_single {α : Type} (seed : Nat) (a : α) : pickOrder seed [a] = [a] := by
  have h := pickOrder_perm seed [a]
  exact List.perm_singleton.1 h

theorem pickOrder_pair {α : Type} (seed : Nat) (a b : α) :
    pickOrder seed [a, b] = [a, b] ∨ pickOrder seed [a, b] = [b, a] := by
  have h := pickOrder_perm seed [a, b]
  have hlen := h.length_eq
  match hp : pickOrder seed [a, b], hlen with
  | [x, y], _ =>
    rw [hp] at h
    have hx : x ∈ [a, b] := h.mem_iff.1 (List.mem_cons_self _ _)
    have hy : y ∈ [a, b] := h.mem_iff.1 (List.mem_cons_of_mem _ (List.mem_cons_self _ _))
    have ha : a ∈ [x, y] := h.mem_iff.2 (List.mem_cons_self _ _)
    have hb : b ∈ [x, y] := h.mem_iff.2 (List.mem_cons_of_mem _ (List.mem_cons_self _ _))
    simp only [List.mem_cons, List.mem_singleton, List.not_mem_nil, or_false] at hx hy ha hb
    rcases hx with hx | hx <;> rcases hy with hy | hy
    · subst hx; subst hy
      rcases hb with hb | hb <;> subst hb <;> exact Or.inl rfl
    · subst hx; subst hy
      exact Or.inl rfl
    · subst hx; subst hy
      exact Or.inr rfl
    · subst hx; subst hy
      rcases ha with ha | ha <;> subst ha <;> exact Or.inl rfl

theorem rangeValues_userA (seed : Nat) :
    userA.OtherUsers.rangeValues seed = [⟨"C", 3⟩, ⟨"B", 2⟩] ∨
    userA.OtherUsers.rangeValues seed = [⟨"B", 2⟩, ⟨"C", 3⟩] := by
  have hkeys : userA.OtherUsers.keys = ["C", "B"] := rfl
  unfold GoMap.rangeValues GoMap.rangeKeys
  rw [hkeys]
  rcases pickOrder_pair seed "C" "B" with h | h <;> rw [h]
  · exact Or.inl rfl
  · exact Or.inr rfl

theorem rangeValues_userB1 (seed : Nat) :
    userB1.OtherUsers.rangeValues seed = [⟨"C", 3⟩, ⟨"A", 1⟩] ∨
    userB1.OtherUsers.rangeValues seed = [⟨"A", 1⟩, ⟨"C", 3⟩] := by
  have hkeys : userB1.OtherUsers.keys = ["C", "A"] := rfl
  unfold GoMap.rangeValues GoMap.rangeKeys
  rw [hkeys]
  rcases pickOrder_pair seed "C" "A" with h | h <;> rw [h]
  · exact Or.inl rfl
  · exact Or.inr rfl

theorem getRandomChat_single (u : User) (r : Rand) (chatID : String) (room : ChatRoom)
    (hkeys : u.UserChats.keys = [chatID]) (hlook : u.UserChats.lookup chatID = some room) :
    u.getRandomChat r = .ok (.ok room) := by
  have hlen : u.UserChats.len ≠ 0 := by
    unfold GoMap.len
    rw [hkeys]
    simp
  obtain ⟨k, room1, hmem, hl, _, hsel⟩ := getRandomChat_of_nonempty u r hlen
  rw [hkeys, List.mem_singleton] at hmem
  subst hmem
  rw [hlook] at hl
  cases hl
  exact hsel

/-- C18 as stated fails at its last step: in the world where `A` and `B` hold `A_B`,
the sends of `B`'s `CloseChat` are addressed to `C` and `A`, the two users `B` knows,
and none to `B`, so `B` does not receive the CLOSE event. -/
theorem C18_closer_receives_no_close_event :
    world1.find "B" = some userB1 ∧
    (userB1.CloseChat ⟨0, 0, 0, 0, 0⟩).map (fun res => recipients res.sent) = .ok ["C", "A"] ∧
    "B" ∉ ["C", "A"] :=
  ⟨rfl, rfl, by decide⟩

/-- C18, amended: the end-to-end scenario.  Users `A`, `B`, `C` know each other and
hold no room, and every send is delivered to the handler of its recipient.  When `A`'s
`NewChat` picks size 2 and peer `B`, the room id is `A_B`, the NEW event goes to `B`
and `C`, `A` and `B` both end with `A_B` in `UserChats` and `C` is unchanged; when `A`
then runs `NewMessage`, only `B` receives the MESSAGE event and no state changes; when
`B` then runs `CloseChat`, `A` and `C` receive the CLOSE event, `B` itself receives
none and deletes the room on its own, and afterwards all three have `A_B` absent from
`UserChats`. -/
theorem C18_end_to_end (r1 r2 r3 : Rand) (hpick : userA.chooseMembers r1 = .ok ["B"]) :
    ∃ res1 res2 res3 e1 e2 e3,
      world0.find "A" = some userA ∧
      userA.NewChat r1 = .ok res1 ∧ res1.ret = .ok e1 ∧
      e1.Typ = ChatEventNew ∧ e1.ChatRoom = roomAB ∧ e1.ChatRoom.ID = "A_B" ∧
      (recipients res1.sent).Perm ["B", "C"] ∧
      world0.act res1 = world1 ∧
      world1.find "A" = some userA1 ∧ userA1.UserChats.lookup "A_B" = some roomAB ∧
      world1.find "B" = some userB1 ∧ userB1.UserChats.lookup "A_B" = some roomAB ∧
      world1.find "C" = some userC ∧ userC.UserChats = ∅ ∧
      userA1.NewMessage r2 = .ok res2 ∧ res2.ret = .ok e2 ∧
      e2.Typ = ChatEventMessage ∧ e2.ChatRoom = roomAB ∧
      recipients res2.sent = ["B"] ∧
      world1.act res2 = world1 ∧
      userB1.CloseChat r3 = .ok res3 ∧ res3.ret = .ok e3 ∧
      e3.Typ = ChatEventClose ∧ e3.ChatRoom = roomAB ∧
      (recipients res3.sent).Perm ["A", "C"] ∧ "B" ∉ recipients res3.sent ∧
      world1.act res3 = world0 ∧
      (∀ u ∈ world1.act res3, u.UserChats.lookup "A_B" = none) := by
  have h1 := NewChat_of_fresh userA r1 ["B"] hpick rfl
  have hselA : userA1.getRandomChat r2 = .ok (.ok roomAB) :=
    getRandomChat_single userA1 r2 "A_B" roomAB rfl rfl
  have h2 := NewMessage_of_selected userA1 r2 roomAB hselA (by decide)
  have hselB : userB1.getRandomChat r3 = .ok (.ok roomAB) :=
    getRandomChat_single userB1 r3 "A_B" roomAB rfl rfl
  have h3 := CloseChat_of_selected userB1 r3 roomAB hselB
  have hact1 : world0.act (Result.mk
      { userA with
        UserChats := userA.UserChats.insert (chatroomIDOf userA.ID ["B"]) (userA.roomFor ["B"]) }
      ((userA.OtherUsers.rangeValues r1.fanout).map
        (fun user => Send.mk user (userA.newChatEventFor ["B"] r1.now)))
      (.ok (userA.newChatEventFor ["B"] r1.now))) = world1 ∧
      (recipients ((userA.OtherUsers.rangeValues r1.fanout).map
        (fun user => Send.mk user (userA.newChatEventFor ["B"] r1.now)))).Perm ["B", "C"] := by
    rcases rangeValues_userA r1.fanout with h | h <;> rw [h]
    · exact ⟨rfl, List.Perm.swap "B" "C" []⟩
    · exact ⟨rfl, List.Perm.refl _⟩
  have hact3 : world1.act (Result.mk
      { userB1 with UserChats := userB1.UserChats.erase roomAB.ID }
      ((userB1.OtherUsers.rangeValues r3.fanout).map
        (fun user => Send.mk user (userB1.closeEventFor roomAB r3.now)))
      (.ok (userB1.closeEventFor roomAB r3.now))) = world0 ∧
      (recipients ((userB1.OtherUsers.rangeValues r3.fanout).map
        (fun user => Send.mk user (userB1.closeEventFor roomAB r3.now)))).Perm ["A", "C"] := by
    rcases rangeValues_userB1 r3.fanout with h | h <;> rw [h]
    · exact ⟨rfl, List.Perm.swap "A" "C" []⟩
    · exact ⟨rfl, List.Perm.refl _⟩
  refine ⟨_, _, _, _, _, _, rfl, h1, rfl, rfl, rfl, rfl, hact1.2, hact1.1, rfl, rfl, rfl, rfl,
    rfl, rfl, h2, rfl, rfl, rfl, rfl, rfl, h3, rfl, rfl, rfl, hact3.2, ?_, hact3.1, ?_⟩
  · intro hmem
    have := hact3.2.mem_iff.1 hmem
    revert this
    decide
  · rw [hact3.1]
    decide

/-- Witness of the amended C18 for one outcome of the draws. -/
theorem C18_end_to_end_witness :
    userA.chooseMembers ⟨0, 0, 1, 0, 5⟩ = .ok ["B"] ∧
    (userA.NewChat ⟨0, 0, 1, 0, 5⟩).map (fun res => world0.act res) = .ok world1 ∧
    (userA1.NewMessage ⟨0, 0, 0, 0, 6⟩).map (fun res => recipients res.sent) = .ok ["B"] ∧
    (userB1.CloseChat ⟨0, 0, 0, 1, 7⟩).map (fun res => world1.act res) = .ok world0 ∧
    ∃ res3, userB1.CloseChat ⟨0, 0, 0, 1, 7⟩ = .ok res3 ∧ "B" ∉ recipients res3.sent := by
  obtain ⟨_, _, res3, _, _, _, _, _, _, _, _, _, _, _, _, _, _, _, _, _, _, _, _, _, _, _,
      h3, _, _, _, _, hB, _⟩ :=
    C18_end_to_end ⟨0, 0, 1, 0, 5⟩ ⟨0, 0, 0, 0, 6⟩ ⟨0, 0, 0, 1, 7⟩ rfl
  exact ⟨rfl, rfl, rfl, rfl, res3, h3, hB⟩

/-! ## The timer and the key of a stored room -/

/-- C19: timer decision.  For every draw `n` of `rand.Intn(10)` (so `n < 10`, and each
such `n` is a possible draw), the timer branch of `Start` runs `NewChat` exactly when
`n = 0`, `NewMessage` exactly when `n = 1`, `CloseChat` exactly when `n = 2`, and for
every `n` in `3..9` takes no action: the user (`OtherUsers` and `UserChats` included)
is unchanged and no event is sent. -/
theorem C19_timer_decision (u : User) (n : Nat) (r : Rand) (hn : n < 10) :
    randIntn n 10 = .ok n ∧
    (timerSwitch n = .newChat ↔ n = 0) ∧
    (timerSwitch n = .newMessage ↔ n = 1) ∧
    (timerSwitch n = .closeChat ↔ n = 2) ∧
    (timerSwitch n = .noAction ↔ 3 ≤ n) ∧
    (n = 0 → u.timerBranch n r = (u.NewChat r).map (fun res => Tick.mk res.user res.sent)) ∧
    (n = 1 → u.timerBranch n r = (u.NewMessage r).map (fun res => Tick.mk res.user res.sent)) ∧
    (n = 2 → u.timerBranch n r = (u.CloseChat r).map (fun res => Tick.mk res.user res.sent)) ∧
    (3 ≤ n → u.timerBranch n r = .ok (Tick.mk u [])) := by
  have hdraw : randIntn n 10 = .ok n := by
    unfold randIntn
    simp [Nat.mod_eq_of_lt hn]
  refine ⟨hdraw, ?_, ?_, ?_, ?_, ?_, ?_, ?_, ?_⟩
  · interval_cases n <;> decide
  · interval_cases n <;> decide
  · interval_cases n <;> decide
  · interval_cases n <;> decide
  · intro h0
    subst h0
    rfl
  · intro h1
    subst h1
    rfl
  · intro h2
    subst h2
    rfl
  · intro h3
    unfold User.timerBranch
    rw [hdraw]
    have hsw : timerSwitch n = .noAction := by
      interval_cases n <;> first | omega | rfl
    simp only [hsw]

/-- Witness of C19: the draw 7 leaves `A` alone, the draw 1 sends its message. -/
theorem C19_timer_decision_witness :
    7 < 10 ∧ 3 ≤ 7 ∧
    userWithRoom.timerBranch 7 ⟨0, 0, 0, 0, 0⟩ = .ok (Tick.mk userWithRoom []) ∧
    1 < 10 ∧
    userWithRoom.timerBranch 1 ⟨0, 0, 0, 0, 0⟩ =
      (userWithRoom.NewMessage ⟨0, 0, 0, 0, 0⟩).map (fun res => Tick.mk res.user res.sent) :=
  ⟨by decide, by decide,
   (C19_timer_decision userWithRoom 7 ⟨0, 0, 0, 0, 0⟩ (by decide)).2.2.2.2.2.2.2.2 (by decide),
   by decide,
   (C19_timer_decision userWithRoom 1 ⟨0, 0, 0, 0, 0⟩ (by decide)).2.2.2.2.2.2.1 rfl⟩

/-- C20: key consistency.  For every user that starts with empty `UserChats` and goes
through any finite sequence of `handleNewUser`, `handleNewChat`, `handleChatClose`,
`NewChat`, `NewMessage` and `CloseChat`, every entry of `UserChats` is stored under a
key equal to the stored room's `ID`; consequently, whenever `CloseChat` then returns
an event, the key drawn by `getRandomChat` holds the room of the event, that room's
`ID` is this key, and the delete by `selectedChat.ID` removes exactly that entry. -/
theorem C20_key_consistency (u0 u : User) (ops : List Op)
    (hempty : u0.UserChats = ∅) (hrun : u0.execute ops = .ok u) :
    (∀ chatID room, u.UserChats.lookup chatID = some room → room.ID = chatID) ∧
    ∀ r res event, u.CloseChat r = .ok res → res.ret = .ok event →
      ∃ chatID, (u.UserChats.rangeKeys r.keys)[r.intn % u.UserChats.len]? = some chatID ∧
        u.UserChats.lookup chatID = some event.ChatRoom ∧
        event.ChatRoom.ID = chatID ∧
        res.user.UserChats = u.UserChats.erase chatID ∧
        res.user.UserChats.lookup chatID = none ∧
        GoMap.len res.user.UserChats + 1 = u.UserChats.len ∧
        ∀ k, k ≠ chatID → res.user.UserChats.lookup k = u.UserChats.lookup k := by
  have hinv : u.KeyInv := execute_keyInv ops u0 u (keyInv_of_empty u0 hempty) hrun
  refine ⟨hinv, ?_⟩
  intro r res event hclose hret
  by_cases hlen : u.UserChats.len = 0
  · rw [CloseChat_of_empty u r hlen] at hclose
    simp only [Except.ok.injEq] at hclose
    rw [← hclose] at hret
    cases hret
  · obtain ⟨chatID, room, hmem, hlook, hidx, hc⟩ := CloseChat_of_nonempty u r hlen
    rw [hc] at hclose
    simp only [Except.ok.injEq] at hclose
    subst hclose
    simp only [Except.ok.injEq] at hret
    subst hret
    have hid : room.ID = chatID := hinv chatID room hlook
    refine ⟨chatID, hidx, hlook, hid, ?_, ?_, ?_, ?_⟩
    · show u.UserChats.erase room.ID = u.UserChats.erase chatID
      rw [hid]
    · show (u.UserChats.erase room.ID).lookup chatID = none
      rw [hid]
      exact AList.lookup_erase chatID _
    · show GoMap.len (u.UserChats.erase room.ID) + 1 = u.UserChats.len
      rw [hid]
      exact len_erase_of_mem _ _ hmem
    · intro k hk
      show (u.UserChats.erase room.ID).lookup k = u.UserChats.lookup k
      rw [hid]
      exact AList.lookup_erase_ne hk

/-- Witness of C20: `A`, from its start, learns of `B` and is told of the room `A_B`,
which it holds under the key `A_B`; closing removes that entry. -/
theorem C20_key_consistency_witness :
    (User.mkUser "A" 1).UserChats = ∅ ∧
    (User.mkUser "A" 1).execute
      [Op.newUser ⟨"B", 2⟩ 0, Op.newChatEvent ⟨"A_B", ["A", "B"]⟩] = .ok userWithRoom ∧
    userWithRoom.UserChats.lookup "A_B" = some ⟨"A_B", ["A", "B"]⟩ ∧
    (ChatRoom.mk "A_B" ["A", "B"]).ID = "A_B" ∧
    ∃ chatID, userWithRoom.UserChats.lookup chatID = some ⟨"A_B", ["A", "B"]⟩ ∧
      (userWithRoom.UserChats.erase "A_B").lookup chatID = none :=
  ⟨rfl, rfl, rfl,
   (C20_key_consistency (User.mkUser "A" 1) userWithRoom
      [Op.newUser ⟨"B", 2⟩ 0, Op.newChatEvent ⟨"A_B", ["A", "B"]⟩] rfl rfl).1
      "A_B" ⟨"A_B", ["A", "B"]⟩ rfl,
   by
     obtain ⟨chatID, _, h2, _, _, h5, _⟩ :=
       (C20_key_consistency (User.mkUser "A" 1) userWithRoom
         [Op.newUser ⟨"B", 2⟩ 0, Op.newChatEvent ⟨"A_B", ["A", "B"]⟩] rfl rfl).2
         ⟨0, 0, 0, 0, 0⟩ _ _ rfl rfl
     exact ⟨chatID, h2, h5⟩⟩

end Chatsim
